import Mathlib

/-!
Verification development for the self-kernel predictive engine.

The definitions below are a shallow embedding of the JavaScript source:
  * the stage machine and confidence propagator (`fsm.js`, `src/unnamed/part_005`),
  * the parameter learner (`src/server/learning.js`),
  * the execution staging queue (`src/server/orchestrator.js`),
  * the anomaly gate scoring (`src/client/panels/timeline.js`).

Modelling conventions:
  * JavaScript numbers are embedded as exact rationals; `Math.pow` and
    `Math.sqrt` (whose float semantics is not rational) are abstracted as
    fields of an `Env` record, and theorems quantify over every such
    function, adding explicit hypotheses (for example that `pow` at a
    natural exponent is iterated multiplication) only where a claim needs
    the concrete value.
  * Timestamps are integer milliseconds (as in JavaScript `Date.now()`);
    the wall clock is a `now` field of the store state, constant during a
    single request, matching the single-threaded request model.
  * The keyed record store is the in-memory state `St`; `storage.update`
    merges the patch over the stored record and stamps `updatedAt`.
  * The mutually recursive FSM operations are interpreted with explicit
    fuel (`kernel env fuel`); running out of fuel yields `none`, a thrown
    JavaScript error yields `Except.error`, and `null` results are
    `Option`.
  * `St.trace` is ghost instrumentation: it records the order in which
    `propagateWeightUpwards` is entered, and has no influence on any
    other field.  It exists only to state visit-count properties.
-/

namespace SelfKernel

/-- Decidable equality on `Except`, so that concrete interpreter results
can be compared by `decide`. -/
instance {ε α : Type _} [DecidableEq ε] [DecidableEq α] : DecidableEq (Except ε α) := fun x y =>
  match x, y with
  | .ok a, .ok b =>
    if h : a = b then .isTrue (congrArg Except.ok h)
    else .isFalse (fun hc => h (Except.ok.inj hc))
  | .error a, .error b =>
    if h : a = b then .isTrue (congrArg Except.error h)
    else .isFalse (fun hc => h (Except.error.inj hc))
  | .ok _, .error _ => .isFalse (fun hc => Except.noConfusion hc)
  | .error _, .ok _ => .isFalse (fun hc => Except.noConfusion hc)

/-- The four lifecycle stages of `fsm.js` (`STATES`). -/
inductive Stage where
  | EXPLORATION
  | REFINING
  | REFUTED
  | DECISION
deriving DecidableEq, Repr, Fintype

/-- The legal-transition table `TRANSITIONS` of `fsm.js`. -/
def TRANSITIONS : Stage → List Stage
  | .EXPLORATION => [.REFINING, .REFUTED, .DECISION]
  | .REFINING => [.EXPLORATION, .DECISION, .REFUTED]
  | .REFUTED => [.EXPLORATION]
  | .DECISION => [.REFINING]

/-- Embeds `validateTransition(currentStage, newState)` of `fsm.js`: a same-stage
transition is allowed, otherwise the target must be in the current stage's
adjacency list. -/
def validateTransition (currentStage newState : Stage) : Bool :=
  decide (currentStage = newState) || decide (newState ∈ TRANSITIONS currentStage)

/-- Printable stage name, used in the invalid-transition error message. -/
def stageName : Stage → String
  | .EXPLORATION => "EXPLORATION"
  | .REFINING => "REFINING"
  | .REFUTED => "REFUTED"
  | .DECISION => "DECISION"

/-- One `stageHistory` entry of an intent. -/
structure HistEntry where
  stage : Stage
  timestamp : Int
  note : String
deriving DecidableEq, Repr

/-- An intent record as stored in the `intents` collection. -/
structure Intent where
  id : String
  title : String
  description : String
  stage : Stage
  confidence : ℚ
  stageHistory : List HistEntry
  priority : Option String := none
  tags : List String := []
  createdAt : Int := 0
  updatedAt : Int := 0
deriving DecidableEq, Repr

/-- A relation record: a weighted directed edge.  `weight` is `Option`
because the field may be absent (the code reads `rel.weight || 0.5`). -/
structure Relation where
  sourceType : String
  sourceId : String
  targetType : String
  targetId : String
  weight : Option ℚ := none
deriving DecidableEq, Repr

/-- A person record (only the fields the orchestrator reads). -/
structure Person where
  id : String
  name : String
  role : String
deriving DecidableEq, Repr

/-- A trajectory milestone (only the fields the orchestrator reads). -/
structure Milestone where
  intentId : String
  label : String
deriving DecidableEq, Repr

/-- A trajectory record. -/
structure Trajectory where
  milestones : List Milestone
deriving DecidableEq, Repr

/-- The dynamic system thresholds stored under `kernel-meta.parameters`
(`learning.js`). -/
structure Params where
  anomalyThreshold : ℚ
  executionThreshold : ℚ
  decayRate : ℚ
deriving DecidableEq, Repr

/-- The `kernel-meta` record; `parameters` is absent until initialized. -/
structure KernelMeta where
  parameters : Option Params := none
deriving DecidableEq, Repr

/-- A staged execution payload (`buildExecutionPayload` in
`orchestrator.js`).  `task_id` is drawn from a counter standing in for
`randomUUID`. -/
structure ExecutionPayload where
  task_id : ℕ
  intent_source_id : String
  directive : String
  parameters : String
  priority : String
  confidence_trigger : ℚ
  involved_entities : List (String × String)
  tags : List String
  predicted_tools : List String
  status : String
deriving DecidableEq, Repr

/-- Abstraction of the JavaScript float library functions used by the
source: `pow b e` stands for `Math.pow(b, e)` and `sqrt x` for
`Math.sqrt(x)`. -/
structure Env where
  pow : ℚ → ℚ → ℚ
  sqrt : ℚ → ℚ

/-- The whole mutable state: the keyed store collections, the singleton
`kernel-meta` record, the in-process execution queue, an `mcp-logs`
counter, the clock, a counter backing `randomUUID`, and the ghost
propagation trace. -/
structure St where
  intents : List Intent
  relations : List Relation
  persons : List Person
  trajectories : List Trajectory
  meta : Option KernelMeta
  queue : List ExecutionPayload
  logs : ℕ
  now : Int
  nextUuid : ℕ
  trace : List String := []
deriving DecidableEq, Repr

/-- Embeds `storage.getById('intents', id)`. -/
def getIntent (st : St) (id : String) : Option Intent :=
  st.intents.find? (fun i => i.id == id)

/-- Embeds `storage.update('intents', id, intent)`: merge the patch over the
stored record (the patch here is always the whole fetched object, so the
result is the patch), preserve `id`, stamp `updatedAt`; a missing record
is left missing (`update` returns `null`, which the engine ignores). -/
def updateIntent (st : St) (id : String) (i : Intent) : St :=
  { st with
    intents := st.intents.map (fun j =>
      if j.id == id then { i with id := id, updatedAt := st.now } else j) }

/-- The default parameters installed by `getSystemParameters` when
`meta.parameters` is missing (`learning.js`): note that `decayRate`
defaults to `0.05` there, while `evaluateConfidence` hardcodes `0.95`. -/
def defaultParams : Params :=
  { anomalyThreshold := 2, executionThreshold := 19/20, decayRate := 1/20 }

/-- Embeds `getSystemParameters()` of `learning.js`.  Dereferencing
`meta.parameters` on a missing `kernel-meta` record throws (`none`);
a missing `parameters` object is initialized to the defaults and
persisted. -/
def getSystemParameters (st : St) : Option (St × Params) :=
  match st.meta with
  | none => none
  | some m =>
    match m.parameters with
    | some p => some (st, p)
    | none =>
      some ({ st with meta := some { parameters := some defaultParams } }, defaultParams)

/-- Embeds `processReward(taskId, rewardType)` of `learning.js`.  The `taskId`
is only logged, so it is not a parameter here; each reward branch creates
one `mcp-logs` record and the updated parameters are written back to
`kernel-meta` unconditionally. -/
def processReward (st : St) (rewardType : Int) : Option (St × Params) :=
  match st.meta with
  | none => none
  | some _ =>
    match getSystemParameters st with
    | none => none
    | some (st1, params) =>
      if rewardType = 1 then
        let params2 := { params with
          executionThreshold := max (17/20) (params.executionThreshold - 1/100) }
        some ({ st1 with logs := st1.logs + 1, meta := some { parameters := some params2 } },
          params2)
      else if rewardType = -1 then
        let params2 := { params with
          executionThreshold := min (99/100) (params.executionThreshold + 2/100) }
        some ({ st1 with logs := st1.logs + 1, meta := some { parameters := some params2 } },
          params2)
      else
        some ({ st1 with meta := some { parameters := some params } }, params)

/-- Embeds `buildExecutionPayload(intent, contextPersons, pastTransitions)` of
`orchestrator.js`.  JavaScript falsiness: a confidence of `0` becomes a
`confidence_trigger` of `1.0`, an absent priority becomes `medium`. -/
def buildExecutionPayload (st : St) (intent : Intent)
    (contextPersons : List Person) (pastTransitions : List String) : ExecutionPayload :=
  { task_id := st.nextUuid
    intent_source_id := intent.id
    directive := intent.title
    parameters := intent.description
    priority := intent.priority.getD "medium"
    confidence_trigger := if intent.confidence = 0 then 1 else intent.confidence
    involved_entities := contextPersons.map (fun p => (p.role, p.name))
    tags := intent.tags
    predicted_tools := pastTransitions
    status := "staged" }

/-- Embeds `enqueueForExecution(intent)` of `orchestrator.js`.  It is invoked
without `await`, so a thrown error (missing `kernel-meta`) is lost and
leaves the state as it was; below the threshold it no-ops; otherwise it
gathers related persons and next-milestone predictions, appends a staged
payload to the in-process queue and writes one `mcp-logs` record. -/
def enqueueForExecution (st : St) (intent : Intent) : St :=
  match getSystemParameters st with
  | none => st
  | some (st1, params) =>
    if intent.confidence < params.executionThreshold then st1
    else
      let relatedPersonIds :=
        (st1.relations.filter (fun r =>
          r.targetId == intent.id && r.sourceType == "person")).map (fun r => r.sourceId)
      let contextPersons := st1.persons.filter (fun p => relatedPersonIds.contains p.id)
      let pastTransitions := st1.trajectories.flatMap (fun t =>
        match t.milestones.findIdx? (fun m => m.intentId == intent.id) with
        | some idx =>
          if idx + 1 < t.milestones.length then
            ((t.milestones.get? (idx + 1)).map (fun m => m.label)).toList
          else []
        | none => [])
      let payload := buildExecutionPayload st1 intent contextPersons pastTransitions
      { st1 with
        queue := st1.queue ++ [payload]
        nextUuid := st1.nextUuid + 1
        logs := st1.logs + 1 }

/-- Caller-supplied data for `createIntent(data)`.  `precision` is the
parsed numeric value of the precision field: `none` stands for an absent
or non-numeric field (`Number(...)` yields `NaN`, which is falsy). -/
structure IntentData where
  id : Option String := none
  title : String := ""
  description : String := ""
  stage : Option Stage := none
  precision : Option ℚ := none
  priority : Option String := none
  tags : List String := []
  createdAt : Option Int := none
deriving Repr

/-- Embeds `createIntent(data)` of `fsm.js` composed with `storage.create`:
the caller-supplied stage is stored as is (default `EXPLORATION`), the
confidence is `Number(data.precision) || 0.1` (so an absent, non-numeric
or zero precision becomes `0.1`), and a single creation history entry is
recorded.  No validation, clamping or staging happens here. -/
def createIntent (st : St) (data : IntentData) : St × Intent :=
  let stage := data.stage.getD .EXPLORATION
  let confidence : ℚ :=
    match data.precision with
    | none => 1/10
    | some v => if v = 0 then 1/10 else v
  let intent : Intent :=
    { id := data.id.getD ("uuid-" ++ toString st.nextUuid)
      title := data.title
      description := data.description
      stage := stage
      confidence := confidence
      stageHistory := [{ stage := stage, timestamp := st.now, note := "Intent created/identified" }]
      priority := data.priority
      tags := data.tags
      createdAt := data.createdAt.getD st.now
      updatedAt := st.now }
  ({ st with intents := st.intents ++ [intent], nextUuid := st.nextUuid + 1 }, intent)

/-- Milliseconds per day, the divisor in `evaluateConfidence`. -/
def msPerDay : ℚ := 86400000

/-- The elapsed time, in (fractional) days, since an intent's last
update: `(Date.now() - new Date(intent.updatedAt || intent.createdAt)) /
(1000*60*60*24)` in `evaluateConfidence`. -/
def daysPassedOf (st : St) (i : Intent) : ℚ :=
  ((st.now - (if i.updatedAt = 0 then i.createdAt else i.updatedAt) : ℤ) : ℚ) / msPerDay

/-- Result type of `evaluateConfidence` and `addEvidence`: `none` is
fuel exhaustion, `Except.error` a thrown error, the inner `Option` the
possibly-`null` returned intent. -/
abbrev EvalRes := Option (St × Except String (Option Intent))

/-- Result type of `transitionState`. -/
abbrev TransRes := Option (St × Except String Intent)

/-- Result type of `propagateWeightUpwards`. -/
abbrev PropRes := Option (St × Except String Unit)

/-- The five mutually recursive engine operations of `fsm.js`, at one
fixed fuel level.  `propagateLoop` is the `for` loop over parent
relations inside `propagateWeightUpwards`. -/
structure Fns where
  evaluateConfidence : St → String → EvalRes
  transitionState : St → String → Stage → Option String → TransRes
  addEvidence : St → String → ℚ → EvalRes
  propagateWeightUpwards : St → String → PropRes
  propagateLoop : St → List Relation → ℚ → PropRes

/-- The in-place mutation performed by `transitionState` on the fetched
intent before persisting: set the new stage, append the history entry
(with the default note when no reason is given), and apply the forced
confidence bounds for final states — `DECISION` clamps the confidence to
at least the constant `0.95`, `REFUTED` zeroes it. -/
def appliedTransition (st : St) (intent0 : Intent) (newState : Stage)
    (reason : Option String) : Intent :=
  let i1 := { intent0 with
    stage := newState
    stageHistory := intent0.stageHistory ++
      [{ stage := newState, timestamp := st.now
         note := reason.getD "State transitioned via FSM" }] }
  let i2 := if newState = .DECISION then
      { i1 with confidence := max i1.confidence (19/20) } else i1
  if newState = .REFUTED then { i2 with confidence := 0 } else i2

/-- The fuel-indexed interpreter of the mutually recursive engine
operations of `fsm.js`.  Every mutual call is paid with one unit of fuel,
so the recursion is structural; `none` means the fuel ran out. -/
def kernel (env : Env) : ℕ → Fns
  | 0 =>
    { evaluateConfidence := fun _ _ => none
      transitionState := fun _ _ _ _ => none
      addEvidence := fun _ _ _ => none
      propagateWeightUpwards := fun _ _ => none
      propagateLoop := fun _ _ _ => none }
  | fuel + 1 =>
    let prev := kernel env fuel
    { -- `evaluateConfidence(intentId)`: time decay and pruning.
      evaluateConfidence := fun st intentId =>
        match getIntent st intentId with
        | none => some (st, .ok none)
        | some intent0 =>
          if intent0.stage = .DECISION ∨ intent0.stage = .REFUTED then
            some (st, .ok (some intent0))
          else
            let daysPassed : ℚ := daysPassedOf st intent0
            let intent1 :=
              if 1 < daysPassed then
                { intent0 with confidence := intent0.confidence * env.pow (19/20) daysPassed }
              else intent0
            let st1 := if 1 < daysPassed then updateIntent st intentId intent1 else st
            if intent1.confidence < 1/20 ∧ intent1.stage ≠ .REFUTED then
              match prev.transitionState st1 intentId .REFUTED
                  (some "Archived due to low confidence (temporal decay)") with
              | none => none
              | some (st2, .ok i) => some (st2, .ok (some i))
              | some (st2, .error e) => some (st2, .error e)
            else some (st1, .ok (some intent1))
      -- `transitionState(intentId, newState, reason)`.
      transitionState := fun st intentId newState reason =>
        match getIntent st intentId with
        | none => some (st, .error "Intent not found")
        | some intent0 =>
          if validateTransition intent0.stage newState then
            let i3 := appliedTransition st intent0 newState reason
            let st1 := updateIntent st intentId i3
            let st2 := if newState = .DECISION then enqueueForExecution st1 i3 else st1
            match prev.propagateWeightUpwards st2 intentId with
            | none => none
            | some (st3, .ok _) => some (st3, .ok i3)
            | some (st3, .error e) => some (st3, .error e)
          else
            some (st, .error ("Invalid transition from " ++ stageName intent0.stage ++
              " to " ++ stageName newState))
      -- `addEvidence(intentId, precisionWeight)`.
      addEvidence := fun st intentId precisionWeight =>
        match prev.evaluateConfidence st intentId with
        | none => none
        | some (st1, .error e) => some (st1, .error e)
        | some (st1, .ok none) => some (st1, .ok none)
        | some (st1, .ok (some intent0)) =>
          if intent0.stage = .DECISION ∨ intent0.stage = .REFUTED then
            some (st1, .ok (some intent0))
          else
            let i1 := { intent0 with
              confidence := intent0.confidence + precisionWeight * (1 - intent0.confidence) }
            let st2 := updateIntent st1 intentId i1
            if 19/20 ≤ i1.confidence ∧ i1.stage ≠ .DECISION then
              match prev.transitionState st2 intentId .DECISION
                  (some "Confidence exceeded P>0.95 execution threshold") with
              | none => none
              | some (st3, .ok _) => some (st3, .ok (some i1))
              | some (st3, .error e) => some (st3, .error e)
            else if 7/10 ≤ i1.confidence ∧ i1.stage = .EXPLORATION then
              match prev.transitionState st2 intentId .REFINING
                  (some "Confidence exceeded P>0.70 refinement threshold") with
              | none => none
              | some (st3, .ok _) => some (st3, .ok (some i1))
              | some (st3, .error e) => some (st3, .error e)
            else some (st2, .ok (some i1))
      -- `propagateWeightUpwards(childIntentId)`.
      propagateWeightUpwards := fun st childIntentId =>
        let st0 := { st with trace := st.trace ++ [childIntentId] }
        match prev.evaluateConfidence st0 childIntentId with
        | none => none
        | some (st1, .error e) => some (st1, .error e)
        | some (st1, .ok none) => some (st1, .ok ())
        | some (st1, .ok (some child)) =>
          let parentRelations := st1.relations.filter (fun r =>
            r.targetType == "intent" && r.targetId == childIntentId &&
              r.sourceType == "intent")
          prev.propagateLoop st1 parentRelations child.confidence
      -- The `for (const rel of parentRelations)` loop.
      propagateLoop := fun st rels childConfidence =>
        match rels with
        | [] => some (st, .ok ())
        | rel :: rest =>
          let edgeWeight : ℚ :=
            match rel.weight with
            | none => 1/2
            | some w => if w = 0 then 1/2 else w
          match prev.addEvidence st rel.sourceId (childConfidence * edgeWeight) with
          | none => none
          | some (st1, .error e) => some (st1, .error e)
          | some (st1, .ok _) => prev.propagateLoop st1 rest childConfidence }

/-- Runs `evaluateConfidence` with the given fuel. -/
def evaluateConfidence (env : Env) (fuel : ℕ) (st : St) (intentId : String) : EvalRes :=
  (kernel env fuel).evaluateConfidence st intentId

/-- Runs `transitionState` with the given fuel. -/
def transitionState (env : Env) (fuel : ℕ) (st : St) (intentId : String)
    (newState : Stage) (reason : Option String) : TransRes :=
  (kernel env fuel).transitionState st intentId newState reason

/-- Runs `addEvidence` with the given fuel. -/
def addEvidence (env : Env) (fuel : ℕ) (st : St) (intentId : String)
    (precisionWeight : ℚ) : EvalRes :=
  (kernel env fuel).addEvidence st intentId precisionWeight

/-- Runs `propagateWeightUpwards` with the given fuel. -/
def propagateWeightUpwards (env : Env) (fuel : ℕ) (st : St) (childIntentId : String) : PropRes :=
  (kernel env fuel).propagateWeightUpwards st childIntentId

/-- The parent-relation loop of `propagateWeightUpwards` run with the
given fuel. -/
def propagateLoop (env : Env) (fuel : ℕ) (st : St) (rels : List Relation)
    (childConfidence : ℚ) : PropRes :=
  (kernel env fuel).propagateLoop st rels childConfidence

/-- One tracked feature of the anomaly baseline (`timeline.js`): running
mean, sum of squared deviations and variance. -/
structure Feature where
  mean : ℚ
  m2 : ℚ
  variance : ℚ
deriving DecidableEq, Repr

/-- The process-wide statistical baseline record. -/
structure Baseline where
  count : ℕ
  length : Feature
  hour : Feature
deriving DecidableEq, Repr

/-- The object returned by `calculateAnomalyScore`.  In the sparse-data
branch the source object carries no z-score fields; they are zero here. -/
structure AnomalyResult where
  score : ℚ
  isNovel : Bool
  zLength : ℚ
  zHour : ℚ
deriving DecidableEq, Repr

/-- Embeds `calculateAnomalyScore(rawText)` of `timeline.js`, with the ambient
reads made explicit: `textLength` is `rawText.length`, `currentHour` is
`new Date().getHours()`, `params` the current system parameters, and
`env.sqrt` stands for `Math.sqrt`.  With fewer than 3 baseline samples it
returns the fixed novel score `99`; otherwise it combines the absolute
length z-score and the 24-hour-wrapped hour z-score as `0.7·zL + 0.3·zH`
(a standard deviation of `0` is replaced by `1`, JavaScript `|| 1`). -/
def calculateAnomalyScore (env : Env) (baseline : Baseline) (textLength : ℚ)
    (currentHour : ℚ) (params : Params) : AnomalyResult :=
  if baseline.count < 3 then
    { score := 99, isNovel := true, zLength := 0, zHour := 0 }
  else
    let lengthStdDev : ℚ :=
      if env.sqrt baseline.length.variance = 0 then 1 else env.sqrt baseline.length.variance
    let zLength := |(textLength - baseline.length.mean) / lengthStdDev|
    let timeDist := min |currentHour - baseline.hour.mean| (24 - |currentHour - baseline.hour.mean|)
    let hourStdDev : ℚ :=
      if env.sqrt baseline.hour.variance = 0 then 1 else env.sqrt baseline.hour.variance
    let zHour := timeDist / hourStdDev
    let combinedAnomalyScore := zLength * (7/10) + zHour * (3/10)
    { score := combinedAnomalyScore
      isNovel := decide (params.anomalyThreshold < combinedAnomalyScore)
      zLength := zLength
      zHour := zHour }

/-- The adjacency table exactly as the specification states it, written
independently of `TRANSITIONS` so that `validateTransition` can be
compared against the spec text. -/
def specAdjacency (current target : Stage) : Bool :=
  match current, target with
  | .EXPLORATION, .REFINING => true
  | .EXPLORATION, .REFUTED => true
  | .EXPLORATION, .DECISION => true
  | .REFINING, .EXPLORATION => true
  | .REFINING, .DECISION => true
  | .REFINING, .REFUTED => true
  | .REFUTED, .EXPLORATION => true
  | .DECISION, .REFINING => true
  | _, _ => false

/-! ### Unfolding equations for the fuel-indexed interpreter -/

theorem evaluateConfidence_zero (env : Env) (st : St) (intentId : String) :
    evaluateConfidence env 0 st intentId = none := rfl

theorem transitionState_zero (env : Env) (st : St) (intentId : String)
    (newState : Stage) (reason : Option String) :
    transitionState env 0 st intentId newState reason = none := rfl

theorem addEvidence_zero (env : Env) (st : St) (intentId : String) (w : ℚ) :
    addEvidence env 0 st intentId w = none := rfl

theorem propagateWeightUpwards_zero (env : Env) (st : St) (id : String) :
    propagateWeightUpwards env 0 st id = none := rfl

theorem propagateLoop_zero (env : Env) (st : St) (rels : List Relation) (c : ℚ) :
    propagateLoop env 0 st rels c = none := rfl

theorem evaluateConfidence_succ (env : Env) (fuel : ℕ) (st : St) (intentId : String) :
    evaluateConfidence env (fuel + 1) st intentId =
      match getIntent st intentId with
      | none => some (st, .ok none)
      | some intent0 =>
        if intent0.stage = .DECISION ∨ intent0.stage = .REFUTED then
          some (st, .ok (some intent0))
        else
          let daysPassed : ℚ := daysPassedOf st intent0
          let intent1 :=
            if 1 < daysPassed then
              { intent0 with confidence := intent0.confidence * env.pow (19/20) daysPassed }
            else intent0
          let st1 := if 1 < daysPassed then updateIntent st intentId intent1 else st
          if intent1.confidence < 1/20 ∧ intent1.stage ≠ .REFUTED then
            match transitionState env fuel st1 intentId .REFUTED
                (some "Archived due to low confidence (temporal decay)") with
            | none => none
            | some (st2, .ok i) => some (st2, .ok (some i))
            | some (st2, .error e) => some (st2, .error e)
          else some (st1, .ok (some intent1)) := rfl

theorem transitionState_succ (env : Env) (fuel : ℕ) (st : St) (intentId : String)
    (newState : Stage) (reason : Option String) :
    transitionState env (fuel + 1) st intentId newState reason =
      match getIntent st intentId with
      | none => some (st, .error "Intent not found")
      | some intent0 =>
        if validateTransition intent0.stage newState then
          let i3 := appliedTransition st intent0 newState reason
          let st1 := updateIntent st intentId i3
          let st2 := if newState = .DECISION then enqueueForExecution st1 i3 else st1
          match propagateWeightUpwards env fuel st2 intentId with
          | none => none
          | some (st3, .ok _) => some (st3, .ok i3)
          | some (st3, .error e) => some (st3, .error e)
        else
          some (st, .error ("Invalid transition from " ++ stageName intent0.stage ++
            " to " ++ stageName newState)) := rfl

theorem addEvidence_succ (env : Env) (fuel : ℕ) (st : St) (intentId : String) (w : ℚ) :
    addEvidence env (fuel + 1) st intentId w =
      match evaluateConfidence env fuel st intentId with
      | none => none
      | some (st1, .error e) => some (st1, .error e)
      | some (st1, .ok none) => some (st1, .ok none)
      | some (st1, .ok (some intent0)) =>
        if intent0.stage = .DECISION ∨ intent0.stage = .REFUTED then
          some (st1, .ok (some intent0))
        else
          let i1 := { intent0 with
            confidence := intent0.confidence + w * (1 - intent0.confidence) }
          let st2 := updateIntent st1 intentId i1
          if 19/20 ≤ i1.confidence ∧ i1.stage ≠ .DECISION then
            match transitionState env fuel st2 intentId .DECISION
                (some "Confidence exceeded P>0.95 execution threshold") with
            | none => none
            | some (st3, .ok _) => some (st3, .ok (some i1))
            | some (st3, .error e) => some (st3, .error e)
          else if 7/10 ≤ i1.confidence ∧ i1.stage = .EXPLORATION then
            match transitionState env fuel st2 intentId .REFINING
                (some "Confidence exceeded P>0.70 refinement threshold") with
            | none => none
            | some (st3, .ok _) => some (st3, .ok (some i1))
            | some (st3, .error e) => some (st3, .error e)
          else some (st2, .ok (some i1)) := rfl

theorem propagateWeightUpwards_succ (env : Env) (fuel : ℕ) (st : St) (childIntentId : String) :
    propagateWeightUpwards env (fuel + 1) st childIntentId =
      let st0 := { st with trace := st.trace ++ [childIntentId] }
      match evaluateConfidence env fuel st0 childIntentId with
      | none => none
      | some (st1, .error e) => some (st1, .error e)
      | some (st1, .ok none) => some (st1, .ok ())
      | some (st1, .ok (some child)) =>
        let parentRelations := st1.relations.filter (fun r =>
          r.targetType == "intent" && r.targetId == childIntentId &&
            r.sourceType == "intent")
        propagateLoop env fuel st1 parentRelations child.confidence := rfl

theorem propagateLoop_succ (env : Env) (fuel : ℕ) (st : St) (rels : List Relation) (c : ℚ) :
    propagateLoop env (fuel + 1) st rels c =
      match rels with
      | [] => some (st, .ok ())
      | rel :: rest =>
        let edgeWeight : ℚ :=
          match rel.weight with
          | none => 1/2
          | some w => if w = 0 then 1/2 else w
        match addEvidence env fuel st rel.sourceId (c * edgeWeight) with
        | none => none
        | some (st1, .error e) => some (st1, .error e)
        | some (st1, .ok _) => propagateLoop env fuel st1 rest c := rfl

/-! ### Concrete fixtures used by witnesses and counterexamples -/

-- Batteries seals the rational arithmetic operations; re-open them in
-- this file so that concrete runs of the interpreter reduce by `decide`.
attribute [local semireducible] Rat.mul Rat.inv Rat.add Rat.sub

/-- A concrete instance of the abstracted float functions: `Math.pow`
restricted to the natural exponents the scenarios use, and `Math.sqrt`
on the perfect squares the scenarios use. -/
def witEnv : Env :=
  { pow := fun b e => b ^ e.num.toNat
    sqrt := fun x => if x = 9 then 3 else if x = 4 then 2 else if x = 1 then 1 else
      if x = 0 then 0 else 1 }

/-- A stored intent with the given id, stage and confidence, created at
time 0. -/
def mkIntent (id : String) (stage : Stage) (conf : ℚ) : Intent :=
  { id := id, title := id, description := "", stage := stage, confidence := conf
    stageHistory := [{ stage := stage, timestamp := 0, note := "Intent created/identified" }] }

/-- A store state with the given intents and relations, initialized
parameters, and clock at time `now`. -/
def mkSt (intents : List Intent) (relations : List Relation) (now : Int) : St :=
  { intents := intents, relations := relations, persons := [], trajectories := []
    meta := some { parameters := some defaultParams }
    queue := [], logs := 0, now := now, nextUuid := 0 }

/-- The state component of an `EvalRes`, with a fallback for the
fuel-exhaustion case. -/
def stOfEval (r : EvalRes) (d : St) : St :=
  match r with
  | some (st, _) => st
  | none => d

/-- The returned confidence of a successful `evaluateConfidence` or
`addEvidence` call, if any. -/
def confOfEval (r : EvalRes) : Option ℚ :=
  match r with
  | some (_, .ok (some i)) => some i.confidence
  | _ => none

/-- The returned stage of a successful `evaluateConfidence` or
`addEvidence` call, if any. -/
def stageOfEval (r : EvalRes) : Option Stage :=
  match r with
  | some (_, .ok (some i)) => some i.stage
  | _ => none

/-- Whether a `transitionState` result is a successful one. -/
def okTrans (r : TransRes) : Bool :=
  match r with
  | some (_, .ok _) => true
  | _ => false

/-- A successful-shape predicate turned into an existential. -/
theorem okTrans_spec (r : TransRes) (h : okTrans r = true) :
    ∃ st' j, r = some (st', .ok j) := by
  match r with
  | some (st', .ok j) => exact ⟨st', j, rfl⟩
  | some (_, .error _) => simp [okTrans] at h
  | none => simp [okTrans] at h

/-! ### C5: the transition table -/

/-- C5: for all pairs of stages, `validateTransition` returns true
exactly when the two stages are equal (no-op transition) or the target is
in the source's adjacency set of the table EXPLORATION → REFINING,
REFUTED, DECISION; REFINING → EXPLORATION, DECISION, REFUTED;
REFUTED → EXPLORATION; DECISION → REFINING, and false otherwise (the
spec-side table is `specAdjacency`). -/
theorem validateTransition_matches_spec_table :
    ∀ current target : Stage,
      validateTransition current target =
        (decide (current = target) || specAdjacency current target) := by
  decide

/-! ### C9: createIntent persists unvalidated data -/

/-- C9: `createIntent` stores the caller-supplied stage unchanged
(defaulting to EXPLORATION), never consults the transition table nor
clamps the confidence, maps an absent, non-numeric or zero precision to
confidence `0.1`, and stages nothing: the queue is untouched.  In
particular supplying stage DECISION with no precision yields a persisted
DECISION intent of confidence `0.1` and an unchanged queue. -/
theorem createIntent_unvalidated : ∀ (st : St) (data : IntentData),
    ((createIntent st data).2.stage = data.stage.getD .EXPLORATION) ∧
    ((createIntent st data).2.confidence =
      match data.precision with
      | none => 1/10
      | some v => if v = 0 then 1/10 else v) ∧
    ((createIntent st data).1.queue = st.queue) ∧
    ((createIntent st data).1.intents = st.intents ++ [(createIntent st data).2]) ∧
    ((createIntent st { stage := some .DECISION }).2.stage = .DECISION) ∧
    ((createIntent st { stage := some .DECISION }).2.confidence = 1/10) := by
  intro st data
  refine ⟨rfl, rfl, rfl, rfl, rfl, rfl⟩

/-! ### C7: the parameter learner -/

/-- C7: with initialized parameters, `processReward` on reward `+1` sets
the execution threshold to `max 0.85 (t − 0.01)` — an exact step of
`0.01` whenever `0.86 ≤ t`, idempotent at the floor `0.85`, never below
the floor, strictly decreasing above it — and on reward `−1` sets it to
`min 0.99 (t + 0.02)` — an exact step of `0.02` whenever `t ≤ 0.97`,
idempotent at the ceiling `0.99`, never above the ceiling, strictly
increasing below it; in both cases the updated parameters are persisted
into `kernel-meta`. -/
theorem processReward_threshold_update : ∀ (st : St) (p : Params),
    st.meta = some { parameters := some p } →
    (∃ st1 p1, processReward st 1 = some (st1, p1) ∧
      p1.executionThreshold = max (17/20) (p.executionThreshold - 1/100) ∧
      (17/20 + 1/100 ≤ p.executionThreshold →
        p1.executionThreshold = p.executionThreshold - 1/100) ∧
      (p.executionThreshold = 17/20 → p1.executionThreshold = 17/20) ∧
      (17/20 : ℚ) ≤ p1.executionThreshold ∧
      (17/20 < p.executionThreshold → p1.executionThreshold < p.executionThreshold) ∧
      st1.meta = some { parameters := some p1 }) ∧
    (∃ st2 p2, processReward st (-1) = some (st2, p2) ∧
      p2.executionThreshold = min (99/100) (p.executionThreshold + 2/100) ∧
      (p.executionThreshold ≤ 97/100 →
        p2.executionThreshold = p.executionThreshold + 2/100) ∧
      (p.executionThreshold = 99/100 → p2.executionThreshold = 99/100) ∧
      p2.executionThreshold ≤ 99/100 ∧
      (p.executionThreshold < 99/100 → p.executionThreshold < p2.executionThreshold) ∧
      st2.meta = some { parameters := some p2 }) := by
  intro st p hmeta
  constructor
  · refine ⟨_, _, by rw [processReward, hmeta, getSystemParameters, hmeta]; rfl,
      rfl, ?_, ?_, ?_, ?_, rfl⟩
    · intro h
      rw [max_eq_right (by linarith)]
    · intro h
      rw [h]
      rw [max_eq_left (by norm_num)]
    · exact le_max_left _ _
    · intro h
      rcases le_or_lt (17/20 : ℚ) (p.executionThreshold - 1/100) with h1 | h1
      · rw [max_eq_right h1]; linarith
      · rw [max_eq_left h1.le]; linarith
  · refine ⟨_, _, by rw [processReward, hmeta, getSystemParameters, hmeta]; rfl,
      rfl, ?_, ?_, ?_, ?_, rfl⟩
    · intro h
      rw [min_eq_right (by linarith)]
    · intro h
      rw [h]
      rw [min_eq_left (by norm_num)]
    · exact min_le_left _ _
    · intro h
      rcases le_or_lt (p.executionThreshold + 2/100) (99/100) with h1 | h1
      · rw [min_eq_right h1]; linarith
      · rw [min_eq_left h1.le]; linarith

/-- Witness for C7: at the default parameters (threshold `0.95`), both
reward branches behave as stated. -/
theorem processReward_threshold_update_witness :
    (mkSt [] [] 0).meta = some { parameters := some defaultParams } ∧
    (∃ st1 p1, processReward (mkSt [] [] 0) 1 = some (st1, p1) ∧
      p1.executionThreshold = max (17/20) (defaultParams.executionThreshold - 1/100) ∧
      (17/20 + 1/100 ≤ defaultParams.executionThreshold →
        p1.executionThreshold = defaultParams.executionThreshold - 1/100) ∧
      (defaultParams.executionThreshold = 17/20 → p1.executionThreshold = 17/20) ∧
      (17/20 : ℚ) ≤ p1.executionThreshold ∧
      (17/20 < defaultParams.executionThreshold →
        p1.executionThreshold < defaultParams.executionThreshold) ∧
      st1.meta = some { parameters := some p1 }) ∧
    (∃ st2 p2, processReward (mkSt [] [] 0) (-1) = some (st2, p2) ∧
      p2.executionThreshold = min (99/100) (defaultParams.executionThreshold + 2/100) ∧
      (defaultParams.executionThreshold ≤ 97/100 →
        p2.executionThreshold = defaultParams.executionThreshold + 2/100) ∧
      (defaultParams.executionThreshold = 99/100 → p2.executionThreshold = 99/100) ∧
      p2.executionThreshold ≤ 99/100 ∧
      (defaultParams.executionThreshold < 99/100 →
        defaultParams.executionThreshold < p2.executionThreshold) ∧
      st2.meta = some { parameters := some p2 }) :=
  ⟨rfl, processReward_threshold_update (mkSt [] [] 0) defaultParams rfl⟩

/-! ### C8: the anomaly gate -/

/-- C8: with fewer than 3 baseline samples `calculateAnomalyScore`
returns the fixed high score `99` marked novel; otherwise the score is
`0.7·zLength + 0.3·zHour` with `zLength` the absolute length z-score and
`zHour` the 24-hour-wrapped hour z-score, `isNovel` holds exactly when
the score exceeds the anomaly threshold, and — provided the length
standard deviation is the nonnegative value `Math.sqrt` produces — a
sufficiently long text scores strictly higher than a short one under the
same baseline and hour. -/
theorem calculateAnomalyScore_spec :
    (∀ (env : Env) (b : Baseline) (len hr : ℚ) (p : Params), b.count < 3 →
      calculateAnomalyScore env b len hr p =
        { score := 99, isNovel := true, zLength := 0, zHour := 0 }) ∧
    (∀ (env : Env) (b : Baseline) (len hr : ℚ) (p : Params), 3 ≤ b.count →
      (calculateAnomalyScore env b len hr p).zLength =
        |(len - b.length.mean) /
          (if env.sqrt b.length.variance = 0 then 1 else env.sqrt b.length.variance)| ∧
      (calculateAnomalyScore env b len hr p).zHour =
        min |hr - b.hour.mean| (24 - |hr - b.hour.mean|) /
          (if env.sqrt b.hour.variance = 0 then 1 else env.sqrt b.hour.variance) ∧
      (calculateAnomalyScore env b len hr p).score =
        (calculateAnomalyScore env b len hr p).zLength * (7/10) +
          (calculateAnomalyScore env b len hr p).zHour * (3/10) ∧
      ((calculateAnomalyScore env b len hr p).isNovel = true ↔
        p.anomalyThreshold < (calculateAnomalyScore env b len hr p).score)) ∧
    (∀ (env : Env) (b : Baseline) (shortLen longLen hr : ℚ) (p : Params), 3 ≤ b.count →
      0 ≤ env.sqrt b.length.variance →
      |shortLen - b.length.mean| < longLen - b.length.mean →
      (calculateAnomalyScore env b shortLen hr p).score <
        (calculateAnomalyScore env b longLen hr p).score) := by
  refine ⟨?_, ?_, ?_⟩
  · intro env b len hr p h
    simp [calculateAnomalyScore, h]
  · intro env b len hr p h
    unfold calculateAnomalyScore
    rw [if_neg (Nat.not_lt.mpr h)]
    exact ⟨rfl, rfl, rfl, decide_eq_true_iff⟩
  · intro env b shortLen longLen hr p hcount hsq hlen
    have hσ : 0 < (if env.sqrt b.length.variance = 0 then 1
        else env.sqrt b.length.variance) := by
      split
      · norm_num
      · rename_i hne
        exact lt_of_le_of_ne hsq (Ne.symm hne)
    unfold calculateAnomalyScore
    rw [if_neg (Nat.not_lt.mpr hcount), if_neg (Nat.not_lt.mpr hcount)]
    have habs : |shortLen - b.length.mean| < |longLen - b.length.mean| :=
      lt_of_lt_of_le hlen (le_abs_self _)
    have hz : |(shortLen - b.length.mean) /
          (if env.sqrt b.length.variance = 0 then 1 else env.sqrt b.length.variance)| <
        |(longLen - b.length.mean) /
          (if env.sqrt b.length.variance = 0 then 1 else env.sqrt b.length.variance)| := by
      rw [abs_div, abs_div, abs_of_pos hσ]
      gcongr
    simp only
    linarith [hz]

/-- The concrete baseline used in the C8 witness: 3 samples, length mean
50 with variance 9, hour mean 12 with variance 1. -/
def anomalyBaseline : Baseline :=
  { count := 3
    length := { mean := 50, m2 := 0, variance := 9 }
    hour := { mean := 12, m2 := 0, variance := 1 } }

/-- Witness for C8: under `anomalyBaseline`, a 2000-character text scores
strictly higher than a 10-character one at the same hour. -/
theorem calculateAnomalyScore_spec_witness :
    (calculateAnomalyScore witEnv anomalyBaseline 10 12 defaultParams).score <
      (calculateAnomalyScore witEnv anomalyBaseline 2000 12 defaultParams).score :=
  calculateAnomalyScore_spec.2.2 witEnv anomalyBaseline 10 2000 12 defaultParams
    (by norm_num [anomalyBaseline])
    (by norm_num [witEnv, anomalyBaseline])
    (by norm_num [anomalyBaseline])

/-! ### C3: time decay -/

/-- An intent last updated at time `86400000` (exactly one day before
the clock of `oneDaySt`). -/
def oneDayIntent : Intent :=
  { mkIntent "X" .EXPLORATION (1/2) with updatedAt := 86400000 }

/-- A state whose clock is exactly one full day after the last update of
its only intent. -/
def oneDaySt : St := mkSt [oneDayIntent] [] (2 * 86400000)

/-- C3 counterexample: for an elapsed time of exactly `d = 1` day the
claim predicts the confidence is multiplied by `0.95^1`, but the code
requires *strictly* more than one day (`daysPassed > 1`), so
`evaluateConfidence` returns the intent unchanged: `0.5`, not `0.475`. -/
theorem decay_at_exactly_one_day_cex :
    evaluateConfidence witEnv 5 oneDaySt "X" = some (oneDaySt, .ok (some oneDayIntent)) ∧
    oneDayIntent.confidence = 1/2 ∧
    ¬ oneDayIntent.confidence = oneDayIntent.confidence * ((19/20) ^ (1 : ℕ)) := by
  refine ⟨?_, by decide, by decide⟩
  decide

/-- C3 (amended): for a non-terminal intent, when strictly more than one
day has elapsed (`1 < d`, not `1 ≤ d`) and the decayed value stays at or
above the pruning bound, `evaluateConfidence` multiplies the confidence
by `0.95 ^ d` — the hardcoded constant `0.95`, not
`SystemParameters.decayRate`, whose default is `0.05` — both in the
returned intent and in the store; at exactly one day the intent is
returned unchanged; and for `d = 10` the confidence strictly decreases
when it was positive.  (`env.pow` stands for `Math.pow`; the last part
pins it to iterated multiplication at the natural exponent `10`.) -/
theorem evaluateConfidence_decay (env : Env) (fuel : ℕ) (st : St) (intentId : String)
    (i : Intent) (d : ℚ) (hget : getIntent st intentId = some i)
    (hD : i.stage ≠ .DECISION) (hR : i.stage ≠ .REFUTED)
    (hd : d = daysPassedOf st i) :
    (1 < d → 1/20 ≤ i.confidence * env.pow (19/20) d →
      evaluateConfidence env (fuel + 1) st intentId =
        some (updateIntent st intentId { i with confidence := i.confidence * env.pow (19/20) d },
          .ok (some { i with confidence := i.confidence * env.pow (19/20) d }))) ∧
    (¬ 1 < d → 1/20 ≤ i.confidence →
      evaluateConfidence env (fuel + 1) st intentId = some (st, .ok (some i))) ∧
    (d = 10 → env.pow (19/20) d = (19/20) ^ (10 : ℕ) → 0 < i.confidence →
      i.confidence * env.pow (19/20) d < i.confidence) ∧
    defaultParams.decayRate = 1/20 := by
  have hstage : ¬ (i.stage = .DECISION ∨ i.stage = .REFUTED) := by
    rintro (h | h)
    · exact hD h
    · exact hR h
  refine ⟨?_, ?_, ?_, rfl⟩
  · intro hlt hbound
    rw [evaluateConfidence_succ]
    simp only [hget, if_neg hstage, ← hd, if_pos hlt]
    rw [if_neg]
    intro hcon
    exact absurd hbound (not_le.mpr hcon.1)
  · intro hlt hbound
    rw [evaluateConfidence_succ]
    simp only [hget, if_neg hstage, ← hd, if_neg hlt]
    rw [if_neg]
    intro hcon
    exact absurd hbound (not_le.mpr hcon.1)
  · intro hd10 hpow hpos
    rw [hpow]
    have h1 : ((19:ℚ)/20) ^ (10 : ℕ) < 1 := by
      apply pow_lt_one₀ (by norm_num) (by norm_num) (by norm_num)
    exact mul_lt_of_lt_one_right hpos h1

/-- An intent last updated at time `86400000`, ten days before the clock
of `tenDaySt`, with confidence `0.8`. -/
def tenDayIntent : Intent :=
  { mkIntent "X" .EXPLORATION (4/5) with updatedAt := 86400000 }

/-- A state whose clock is exactly ten days after the last update of its
only intent. -/
def tenDaySt : St := mkSt [tenDayIntent] [] (11 * 86400000)

/-- Witness for C3: after ten days an intent of confidence `0.8` is
decayed to `0.8 · 0.95¹⁰`, strictly below `0.8`. -/
theorem evaluateConfidence_decay_witness :
    evaluateConfidence witEnv 5 tenDaySt "X" =
      some (updateIntent tenDaySt "X"
          { tenDayIntent with confidence := tenDayIntent.confidence * witEnv.pow (19/20) 10 },
        .ok (some { tenDayIntent with
          confidence := tenDayIntent.confidence * witEnv.pow (19/20) 10 })) ∧
    tenDayIntent.confidence * witEnv.pow (19/20) 10 < tenDayIntent.confidence := by
  have h := evaluateConfidence_decay witEnv 4 tenDaySt "X" tenDayIntent 10
    (by decide) (by decide) (by decide) (by decide)
  exact ⟨h.1 (by norm_num) (by decide), h.2.2.1 rfl (by decide) (by decide)⟩

/-! ### C1: the DECISION confidence bound -/

/-- A state with one exploratory intent of confidence `0.5` and the
default parameters. -/
def c1St : St := mkSt [mkIntent "X" .EXPLORATION (1/2)] [] 0

/-- State `c1St` after a `−1` reward, which raises the execution threshold. -/
def c1AfterReward : St :=
  match processReward c1St (-1) with
  | some (st1, _) => st1
  | none => c1St

/-- The execution threshold after the `−1` reward. -/
def c1Threshold : ℚ :=
  match processReward c1St (-1) with
  | some (_, p) => p.executionThreshold
  | none => 0

/-- The confidence produced by transitioning the intent of
`c1AfterReward` into DECISION. -/
def c1Conf : Option ℚ :=
  match transitionState witEnv 10 c1AfterReward "X" .DECISION none with
  | some (_, .ok j) => some j.confidence
  | _ => none

/-- C1 counterexample: one `processReward(−1)` raises the execution
threshold to `0.97`, a reachable value; transitioning an intent of
confidence `0.5` into DECISION then clamps its confidence to the
hardcoded `0.95`, which is strictly below the current execution
threshold — refuting `confidence ≥ executionThreshold` at the moment of
transition. -/
theorem decision_clamp_ignores_threshold_cex :
    c1Threshold = 97/100 ∧ c1Conf = some (19/20) ∧ ((19 : ℚ)/20) < 97/100 := by
  refine ⟨by decide, ?_, by norm_num⟩
  decide

/-- C1 (amended): a successful transition into DECISION clamps the
confidence to `max confidence 0.95` — the fixed constant `0.95`, i.e.
the *initial* execution threshold, not the current (possibly raised)
`SystemParameters.executionThreshold` — so at the moment of transition
the confidence is at least `0.95`, while it can be below a raised
threshold (see the counterexample). -/
theorem transitionState_decision_clamp (env : Env) (fuel : ℕ) (st : St) (intentId : String)
    (reason : Option String) (st' : St) (j : Intent)
    (h : transitionState env fuel st intentId .DECISION reason = some (st', .ok j)) :
    ∃ i, getIntent st intentId = some i ∧ validateTransition i.stage .DECISION = true ∧
      j.confidence = max i.confidence (19/20) ∧ (19/20 : ℚ) ≤ j.confidence ∧
      j.stage = .DECISION ∧ j.stageHistory.length = i.stageHistory.length + 1 := by
  match fuel with
  | 0 => rw [transitionState_zero] at h; exact Option.noConfusion h
  | fuel + 1 =>
    rw [transitionState_succ] at h
    cases hget : getIntent st intentId with
    | none =>
      simp only [hget, Option.some.injEq, Prod.mk.injEq] at h
      exact absurd h.2 (fun hc => Except.noConfusion hc)
    | some i =>
      simp only [hget] at h
      split at h
      · rename_i hval
        split at h
        · exact Option.noConfusion h
        · rename_i st3 a hp
          simp only [Option.some.injEq, Prod.mk.injEq, Except.ok.injEq] at h
          refine ⟨i, rfl, hval, ?_, ?_, ?_, ?_⟩ <;> rw [← h.2]
          · simp [appliedTransition]
          · simp [appliedTransition]
          · simp [appliedTransition]
          · simp [appliedTransition]
        · rename_i st3 e hp
          simp only [Option.some.injEq, Prod.mk.injEq] at h
          exact absurd h.2 (fun hc => Except.noConfusion hc)
      · rename_i hval
        simp only [Option.some.injEq, Prod.mk.injEq] at h
        exact absurd h.2 (fun hc => Except.noConfusion hc)

/-- Witness for C1 (amended): the concrete DECISION transition of `c1St`
succeeds and its result satisfies the clamp equation. -/
theorem transitionState_decision_clamp_witness :
    ∃ st' j, transitionState witEnv 10 c1St "X" .DECISION none = some (st', .ok j) ∧
      ∃ i, getIntent c1St "X" = some i ∧ validateTransition i.stage .DECISION = true ∧
        j.confidence = max i.confidence (19/20) ∧ (19/20 : ℚ) ≤ j.confidence ∧
        j.stage = .DECISION ∧ j.stageHistory.length = i.stageHistory.length + 1 := by
  obtain ⟨st', j, hres⟩ :=
    okTrans_spec (transitionState witEnv 10 c1St "X" .DECISION none) (by decide)
  exact ⟨st', j, hres, transitionState_decision_clamp witEnv 10 c1St "X" none st' j hres⟩

/-! ### Store lemmas -/

theorem getSystemParameters_fields {st st' : St} {p : Params}
    (h : getSystemParameters st = some (st', p)) :
    st'.intents = st.intents ∧ st'.relations = st.relations ∧ st'.persons = st.persons ∧
      st'.trajectories = st.trajectories ∧ st'.queue = st.queue ∧ st'.now = st.now ∧
      st'.trace = st.trace ∧ st'.nextUuid = st.nextUuid := by
  unfold getSystemParameters at h
  split at h
  · exact Option.noConfusion h
  · split at h
    · simp only [Option.some.injEq, Prod.mk.injEq] at h
      rw [← h.1]
      exact ⟨rfl, rfl, rfl, rfl, rfl, rfl, rfl, rfl⟩
    · simp only [Option.some.injEq, Prod.mk.injEq] at h
      rw [← h.1]
      exact ⟨rfl, rfl, rfl, rfl, rfl, rfl, rfl, rfl⟩

theorem enqueueForExecution_fields (st : St) (i : Intent) :
    (enqueueForExecution st i).intents = st.intents ∧
      (enqueueForExecution st i).relations = st.relations ∧
      (enqueueForExecution st i).now = st.now ∧
      (enqueueForExecution st i).trace = st.trace ∧
      st.queue.length ≤ (enqueueForExecution st i).queue.length := by
  unfold enqueueForExecution
  split
  · exact ⟨rfl, rfl, rfl, rfl, le_refl _⟩
  · rename_i st1 p h
    obtain ⟨h1, h2, _, _, h5, h6, h7, _⟩ := getSystemParameters_fields h
    split
    · exact ⟨h1, h2, h6, h7, h5 ▸ le_refl _⟩
    · refine ⟨h1, h2, h6, h7, ?_⟩
      simp only [List.length_append, List.length_cons, List.length_nil, h5]
      omega

theorem find?_map_update (l : List Intent) (id : String) (i : Intent) (now : Int) (j : Intent)
    (h : l.find? (fun x => x.id == id) = some j) :
    (l.map (fun x => if (x.id == id) = true then { i with id := id, updatedAt := now }
        else x)).find? (fun x => x.id == id) =
      some { i with id := id, updatedAt := now } := by
  induction l with
  | nil => simp at h
  | cons a l ih =>
    simp only [List.map_cons]
    by_cases ha : (a.id == id) = true
    · rw [if_pos ha]
      have hid : ((({ i with id := id, updatedAt := now } : Intent)).id == id) = true := by
        simp
      simp [List.find?, hid]
    · rw [if_neg ha]
      simp only [List.find?, ha] at h ⊢
      exact ih h

theorem getIntent_updateIntent {st : St} {id : String} {j : Intent} (i : Intent)
    (h : getIntent st id = some j) :
    getIntent (updateIntent st id i) id = some { i with id := id, updatedAt := st.now } := by
  unfold getIntent at h
  exact find?_map_update st.intents id i st.now j h

theorem updateIntent_ids (st : St) (id : String) (i : Intent) :
    (updateIntent st id i).intents.map Intent.id = st.intents.map Intent.id := by
  unfold updateIntent
  simp only [List.map_map]
  refine List.map_congr_left ?_
  intro x _
  by_cases hx : (x.id == id) = true
  · simp only [Function.comp_apply, hx, if_true]
    exact (eq_of_beq hx).symm
  · simp only [Function.comp_apply, hx, if_false, Bool.false_eq_true]

/-- The rank of a stage: how many automatic forward transitions an
intent in this stage can still undergo within one propagation pass. -/
def rank : Stage → ℕ
  | .EXPLORATION => 2
  | .REFINING => 1
  | .DECISION => 0
  | .REFUTED => 0

/-- The global measure: the total rank of all stored intents. -/
def mu (st : St) : ℕ := (st.intents.map (fun i => rank i.stage)).sum

/-- The file-per-id store never holds two records with the same id. -/
def IdsNodup (st : St) : Prop := (st.intents.map Intent.id).Nodup

instance (st : St) : Decidable (IdsNodup st) := by
  unfold IdsNodup
  infer_instance

theorem rank_le_mu {st : St} {id : String} {j : Intent} (h : getIntent st id = some j) :
    rank j.stage ≤ mu st := by
  have hmem : j ∈ st.intents := List.mem_of_find?_eq_some h
  exact List.single_le_sum (fun x _ => Nat.zero_le x) _ (List.mem_map_of_mem _ hmem)

theorem sum_rank_map_update (l : List Intent) (id : String) (i : Intent) (now : Int)
    (j : Intent) (hnd : (l.map Intent.id).Nodup)
    (h : l.find? (fun x => x.id == id) = some j) :
    ((l.map (fun x => if (x.id == id) = true then { i with id := id, updatedAt := now }
        else x)).map (fun x => rank x.stage)).sum + rank j.stage =
      (l.map (fun x => rank x.stage)).sum + rank i.stage := by
  induction l with
  | nil => simp at h
  | cons a l ih =>
    simp only [List.map_cons, List.nodup_cons] at hnd ⊢
    by_cases ha : (a.id == id) = true
    · have hj : a = j := by
        simpa [List.find?, ha] using h
      have hnotin : ∀ x ∈ l, ¬ (x.id == id) = true := by
        intro x hx hbeq
        exact hnd.1 ((eq_of_beq ha) ▸ (eq_of_beq hbeq) ▸ List.mem_map_of_mem Intent.id hx)
      have hmapeq : l.map (fun x => if (x.id == id) = true then
          { i with id := id, updatedAt := now } else x) = l := by
        calc l.map (fun x => if (x.id == id) = true then
              { i with id := id, updatedAt := now } else x)
            = l.map (fun x => x) :=
              List.map_congr_left (fun x hx => by rw [if_neg (hnotin x hx)])
          _ = l := List.map_id' l
      rw [if_pos ha, hmapeq, ← hj]
      simp only [List.sum_cons]
      omega
    · simp only [List.find?, ha] at h
      have := ih hnd.2 h
      rw [if_neg ha]
      simp only [List.sum_cons]
      omega

theorem mu_updateIntent {st : St} {id : String} {j : Intent} (i : Intent)
    (hnd : IdsNodup st) (h : getIntent st id = some j) :
    mu (updateIntent st id i) + rank j.stage = mu st + rank i.stage := by
  unfold getIntent at h
  exact sum_rank_map_update st.intents id i st.now j hnd h

/-! ### Post-condition lemmas for the interpreter -/

theorem appliedTransition_stage (st : St) (i : Intent) (tgt : Stage) (reason : Option String) :
    (appliedTransition st i tgt reason).stage = tgt := by
  unfold appliedTransition
  by_cases h1 : tgt = .DECISION <;> by_cases h2 : tgt = .REFUTED <;> simp [h1, h2]

theorem appliedTransition_refuted (st : St) (i : Intent) (reason : Option String) :
    (appliedTransition st i .REFUTED reason).confidence = 0 := by
  unfold appliedTransition
  simp

theorem appliedTransition_history (st : St) (i : Intent) (tgt : Stage) (reason : Option String) :
    (appliedTransition st i tgt reason).stageHistory.length = i.stageHistory.length + 1 := by
  unfold appliedTransition
  by_cases h1 : tgt = .DECISION <;> by_cases h2 : tgt = .REFUTED <;> simp [h1, h2]

/-- A successful `transitionState` run always goes through the
validated-write path: the result intent is `appliedTransition` of the
fetched one. -/
theorem transitionState_post {env : Env} {fuel : ℕ} {st : St} {id : String} {tgt : Stage}
    {reason : Option String} {st' : St} {j : Intent}
    (h : transitionState env fuel st id tgt reason = some (st', .ok j)) :
    ∃ i, getIntent st id = some i ∧ validateTransition i.stage tgt = true ∧
      j = appliedTransition st i tgt reason := by
  match fuel with
  | 0 => rw [transitionState_zero] at h; exact Option.noConfusion h
  | fuel + 1 =>
    rw [transitionState_succ] at h
    cases hget : getIntent st id with
    | none => simp [hget] at h
    | some i0 =>
      simp only [hget] at h
      split at h
      · rename_i hval
        split at h
        · exact Option.noConfusion h
        · rename_i st3 a hp
          simp only [Option.some.injEq, Prod.mk.injEq, Except.ok.injEq] at h
          exact ⟨i0, rfl, hval, h.2.symm⟩
        · rename_i st3 e hp
          simp at h
      · simp at h

/-- A successful `evaluateConfidence` run either returns a REFUTED
intent (the pruning path) or leaves a record with the returned stage in
the store. -/
theorem evaluateConfidence_post {env : Env} {fuel : ℕ} {st : St} {id : String}
    {st1 : St} {r : Intent}
    (h : evaluateConfidence env fuel st id = some (st1, .ok (some r))) :
    r.stage = .REFUTED ∨ ∃ j, getIntent st1 id = some j ∧ j.stage = r.stage := by
  match fuel with
  | 0 => rw [evaluateConfidence_zero] at h; exact Option.noConfusion h
  | fuel + 1 =>
    rw [evaluateConfidence_succ] at h
    cases hget : getIntent st id with
    | none => simp [hget] at h
    | some i0 =>
      simp only [hget] at h
      by_cases hterm : i0.stage = .DECISION ∨ i0.stage = .REFUTED
      · rw [if_pos hterm] at h
        simp only [Option.some.injEq, Prod.mk.injEq, Except.ok.injEq,
          Option.some.injEq] at h
        obtain ⟨h1, h2⟩ := h
        subst h2
        exact Or.inr ⟨i0, by rw [← h1]; exact hget, rfl⟩
      · rw [if_neg hterm] at h
        by_cases hd : 1 < daysPassedOf st i0
        · simp only [if_pos hd] at h
          split at h
          · split at h
            · exact Option.noConfusion h
            · rename_i st2 i2 hp
              simp only [Option.some.injEq, Prod.mk.injEq, Except.ok.injEq] at h
              obtain ⟨i', _, _, hi'⟩ := transitionState_post hp
              left
              rw [← h.2, hi']
              exact appliedTransition_stage _ _ _ _
            · rename_i st2 e hp
              simp at h
          · simp only [Option.some.injEq, Prod.mk.injEq, Except.ok.injEq,
              Option.some.injEq] at h
            obtain ⟨h1, h2⟩ := h
            subst h2
            exact Or.inr ⟨{ ({ i0 with confidence :=
                i0.confidence * env.pow (19/20) (daysPassedOf st i0) } : Intent) with
                  id := id, updatedAt := st.now },
              by rw [← h1]; exact getIntent_updateIntent _ hget, rfl⟩
        · simp only [if_neg hd] at h
          split at h
          · split at h
            · exact Option.noConfusion h
            · rename_i st2 i2 hp
              simp only [Option.some.injEq, Prod.mk.injEq, Except.ok.injEq] at h
              obtain ⟨i', _, _, hi'⟩ := transitionState_post hp
              left
              rw [← h.2, hi']
              exact appliedTransition_stage _ _ _ _
            · rename_i st2 e hp
              simp at h
          · simp only [Option.some.injEq, Prod.mk.injEq, Except.ok.injEq,
              Option.some.injEq] at h
            obtain ⟨h1, h2⟩ := h
            subst h2
            exact Or.inr ⟨i0, by rw [← h1]; exact hget, rfl⟩

/-! ### Rank and stage helpers -/

/-- The ghost work measure: trace length plus total rank. -/
def tcount (st : St) : ℤ := st.trace.length + mu st

theorem idsNodup_of_eq {st st' : St}
    (h : st'.intents.map Intent.id = st.intents.map Intent.id) (hnd : IdsNodup st) :
    IdsNodup st' := by
  unfold IdsNodup at *
  rw [h]
  exact hnd

theorem validateTransition_to_refuted {s : Stage} (hD : s ≠ .DECISION) (hR : s ≠ .REFUTED) :
    validateTransition s .REFUTED = true := by
  cases s
  · decide
  · decide
  · exact absurd rfl hR
  · exact absurd rfl hD

theorem validateTransition_to_decision {s : Stage} (hD : s ≠ .DECISION) (hR : s ≠ .REFUTED) :
    validateTransition s .DECISION = true := by
  cases s
  · decide
  · decide
  · exact absurd rfl hR
  · exact absurd rfl hD

theorem one_le_rank {s : Stage} (hD : s ≠ .DECISION) (hR : s ≠ .REFUTED) :
    1 ≤ rank s := by
  cases s
  · decide
  · decide
  · exact absurd rfl hR
  · exact absurd rfl hD

theorem mu_eq_of_update_same_stage {st : St} {id : String} {j : Intent} (i : Intent)
    (hnd : IdsNodup st) (h : getIntent st id = some j) (hs : i.stage = j.stage) :
    mu (updateIntent st id i) = mu st := by
  have hmu := mu_updateIntent i hnd h
  rw [hs] at hmu
  omega

/-- The preservation contract of one engine call: the stored intent ids
and the relations are untouched, the rank measure does not grow, and the
ghost work count grows by at most `k`. -/
def Pres (k : ℤ) (st st' : St) : Prop :=
  st'.intents.map Intent.id = st.intents.map Intent.id ∧ st'.relations = st.relations ∧
    mu st' ≤ mu st ∧ tcount st' ≤ tcount st + k

theorem Pres.refl {st : St} : Pres 0 st st := ⟨Eq.refl _, Eq.refl _, le_refl _, by omega⟩

theorem Pres.trans {k1 k2 : ℤ} {st st1 st' : St} (h1 : Pres k1 st st1)
    (h2 : Pres k2 st1 st') : Pres (k1 + k2) st st' :=
  ⟨h2.1.trans h1.1, h2.2.1.trans h1.2.1, h2.2.2.1.trans h1.2.2.1, by
    have := h1.2.2.2
    have := h2.2.2.2
    omega⟩

theorem Pres.mono {k k' : ℤ} {st st' : St} (h : Pres k st st') (hk : k ≤ k') :
    Pres k' st st' :=
  ⟨h.1, h.2.1, h.2.2.1, by have := h.2.2.2; omega⟩

theorem Pres.nodup {k : ℤ} {st st' : St} (h : Pres k st st') (hnd : IdsNodup st) :
    IdsNodup st' := idsNodup_of_eq h.1 hnd

/-- Deriving the plain contract from the transition contract when the
transition's target has strictly smaller rank than the source stage. -/
theorem pres_of_trans_cond {st st' : St} {s tgt : Stage}
    (hids : st'.intents.map Intent.id = st.intents.map Intent.id)
    (hrels : st'.relations = st.relations)
    (hmu : (mu st' : ℤ) + rank s ≤ (mu st : ℤ) + rank tgt)
    (ht : tcount st' + (rank s : ℤ) ≤ tcount st + 1 + rank tgt)
    (hr : (rank tgt : ℤ) + 1 ≤ rank s) : Pres 0 st st' :=
  ⟨hids, hrels, by omega, by omega⟩

theorem pres_update_same_stage {st : St} {id : String} {j : Intent} (i : Intent)
    (hnd : IdsNodup st) (h : getIntent st id = some j) (hs : i.stage = j.stage) :
    Pres 0 st (updateIntent st id i) := by
  have hmu := mu_eq_of_update_same_stage i hnd h hs
  refine ⟨updateIntent_ids st id i, Eq.refl _, le_of_eq hmu, ?_⟩
  unfold tcount
  rw [show (updateIntent st id i).trace = st.trace from rfl, hmu]
  omega

/-- The preservation contract for every engine operation, by induction
on the fuel: `evaluateConfidence`, `addEvidence` and `propagateLoop`
satisfy `Pres 0`, one `propagateWeightUpwards` pass satisfies `Pres 1`
(its own trace entry), and a `transitionState` run preserves ids and
relations while trading the source stage's rank for the target's. -/
theorem kernel_preserves (fuel : ℕ) (env : Env) :
    (∀ st id st' r, IdsNodup st → evaluateConfidence env fuel st id = some (st', r) →
      Pres 0 st st') ∧
    (∀ st id w st' r, IdsNodup st → addEvidence env fuel st id w = some (st', r) →
      Pres 0 st st') ∧
    (∀ st rels c st' r, IdsNodup st → propagateLoop env fuel st rels c = some (st', r) →
      Pres 0 st st') ∧
    (∀ st id st' r, IdsNodup st → propagateWeightUpwards env fuel st id = some (st', r) →
      Pres 1 st st') ∧
    (∀ st id tgt reason st' r, IdsNodup st →
      transitionState env fuel st id tgt reason = some (st', r) →
      st'.intents.map Intent.id = st.intents.map Intent.id ∧ st'.relations = st.relations ∧
      (∀ i, getIntent st id = some i → validateTransition i.stage tgt = true →
        (mu st' : ℤ) + rank i.stage ≤ (mu st : ℤ) + rank tgt ∧
        tcount st' + (rank i.stage : ℤ) ≤ tcount st + 1 + rank tgt)) := by
  induction fuel with
  | zero =>
    refine ⟨?_, ?_, ?_, ?_, ?_⟩
    · intro st id st' r _ h
      rw [evaluateConfidence_zero] at h
      exact Option.noConfusion h
    · intro st id w st' r _ h
      rw [addEvidence_zero] at h
      exact Option.noConfusion h
    · intro st rels c st' r _ h
      rw [propagateLoop_zero] at h
      exact Option.noConfusion h
    · intro st id st' r _ h
      rw [propagateWeightUpwards_zero] at h
      exact Option.noConfusion h
    · intro st id tgt reason st' r _ h
      rw [transitionState_zero] at h
      exact Option.noConfusion h
  | succ fuel ih =>
    obtain ⟨ihE, ihA, ihL, ihP, ihT⟩ := ih
    -- A successful transition whose stored source stage is non-terminal
    -- satisfies the plain contract for targets DECISION and REFUTED,
    -- and for REFINING from EXPLORATION.
    have autoT : ∀ st1 id tgt reason st' r (i : Intent), IdsNodup st1 →
        transitionState env fuel st1 id tgt reason = some (st', r) →
        getIntent st1 id = some i →
        validateTransition i.stage tgt = true →
        (rank tgt : ℤ) + 1 ≤ rank i.stage →
        Pres 0 st1 st' := by
      intro st1 id tgt reason st' r i hnd1 hp hfetch hv hr
      obtain ⟨hids, hrels, hcond⟩ := ihT st1 id tgt reason st' r hnd1 hp
      obtain ⟨hmuC, htC⟩ := hcond i hfetch hv
      exact pres_of_trans_cond hids hrels hmuC htC hr
    refine ⟨?_, ?_, ?_, ?_, ?_⟩
    -- (1) evaluateConfidence
    · intro st id st' r hnd h
      rw [evaluateConfidence_succ] at h
      cases hget : getIntent st id with
      | none =>
        simp only [hget, Option.some.injEq, Prod.mk.injEq] at h
        rw [← h.1]
        exact Pres.refl
      | some i0 =>
        simp only [hget] at h
        by_cases hterm : i0.stage = .DECISION ∨ i0.stage = .REFUTED
        · rw [if_pos hterm] at h
          simp only [Option.some.injEq, Prod.mk.injEq] at h
          rw [← h.1]
          exact Pres.refl
        · rw [if_neg hterm] at h
          have hnD : i0.stage ≠ .DECISION := fun hc => hterm (Or.inl hc)
          have hnR : i0.stage ≠ .REFUTED := fun hc => hterm (Or.inr hc)
          by_cases hd : 1 < daysPassedOf st i0
          · simp only [if_pos hd] at h
            have presU : Pres 0 st (updateIntent st id
                { i0 with confidence := i0.confidence * env.pow (19/20) (daysPassedOf st i0) }) :=
              pres_update_same_stage _ hnd hget rfl
            have hnd1 := presU.nodup hnd
            have hXget := getIntent_updateIntent
              { i0 with confidence := i0.confidence * env.pow (19/20) (daysPassedOf st i0) } hget
            split at h
            · split at h
              · exact Option.noConfusion h
              · rename_i st2 i2 hp
                simp only [Option.some.injEq, Prod.mk.injEq] at h
                rw [← h.1]
                have hpres2 := autoT _ _ _ _ _ _ _ hnd1 hp hXget
                  (validateTransition_to_refuted hnD hnR)
                  (by
                    show (rank Stage.REFUTED : ℤ) + 1 ≤ (rank i0.stage : ℤ)
                    have h1 := one_le_rank hnD hnR
                    have h0 : rank Stage.REFUTED = 0 := rfl
                    omega)
                simpa using presU.trans hpres2
              · rename_i st2 e hp
                simp only [Option.some.injEq, Prod.mk.injEq] at h
                rw [← h.1]
                have hpres2 := autoT _ _ _ _ _ _ _ hnd1 hp hXget
                  (validateTransition_to_refuted hnD hnR)
                  (by
                    show (rank Stage.REFUTED : ℤ) + 1 ≤ (rank i0.stage : ℤ)
                    have h1 := one_le_rank hnD hnR
                    have h0 : rank Stage.REFUTED = 0 := rfl
                    omega)
                simpa using presU.trans hpres2
            · simp only [Option.some.injEq, Prod.mk.injEq] at h
              rw [← h.1]
              exact presU
          · simp only [if_neg hd] at h
            split at h
            · split at h
              · exact Option.noConfusion h
              · rename_i st2 i2 hp
                simp only [Option.some.injEq, Prod.mk.injEq] at h
                rw [← h.1]
                exact autoT _ _ _ _ _ _ _ hnd hp hget
                  (validateTransition_to_refuted hnD hnR)
                  (by
                    show (rank Stage.REFUTED : ℤ) + 1 ≤ (rank i0.stage : ℤ)
                    have h1 := one_le_rank hnD hnR
                    have h0 : rank Stage.REFUTED = 0 := rfl
                    omega)
              · rename_i st2 e hp
                simp only [Option.some.injEq, Prod.mk.injEq] at h
                rw [← h.1]
                exact autoT _ _ _ _ _ _ _ hnd hp hget
                  (validateTransition_to_refuted hnD hnR)
                  (by
                    show (rank Stage.REFUTED : ℤ) + 1 ≤ (rank i0.stage : ℤ)
                    have h1 := one_le_rank hnD hnR
                    have h0 : rank Stage.REFUTED = 0 := rfl
                    omega)
            · simp only [Option.some.injEq, Prod.mk.injEq] at h
              rw [← h.1]
              exact Pres.refl
    -- (2) addEvidence
    · intro st id w st' r hnd h
      rw [addEvidence_succ] at h
      split at h
      · exact Option.noConfusion h
      · rename_i st1 e heval
        simp only [Option.some.injEq, Prod.mk.injEq] at h
        rw [← h.1]
        simpa using ihE _ _ _ _ hnd heval
      · rename_i st1 heval
        simp only [Option.some.injEq, Prod.mk.injEq] at h
        rw [← h.1]
        simpa using ihE _ _ _ _ hnd heval
      · rename_i st1 i0 heval
        simp only [] at h
        have presE : Pres 0 st st1 := ihE _ _ _ _ hnd heval
        have hnd1 := presE.nodup hnd
        by_cases hterm : i0.stage = .DECISION ∨ i0.stage = .REFUTED
        · rw [if_pos hterm] at h
          simp only [Option.some.injEq, Prod.mk.injEq] at h
          rw [← h.1]
          exact presE
        · rw [if_neg hterm] at h
          have hnD : i0.stage ≠ .DECISION := fun hc => hterm (Or.inl hc)
          have hnR : i0.stage ≠ .REFUTED := fun hc => hterm (Or.inr hc)
          obtain ⟨j1, hj1, hj1s⟩ := (evaluateConfidence_post heval).resolve_left hnR
          have presU : Pres 0 st1 (updateIntent st1 id
              { i0 with confidence := i0.confidence + w * (1 - i0.confidence) }) :=
            pres_update_same_stage _ hnd1 hj1 hj1s.symm
          have hnd2 := presU.nodup hnd1
          have hYget := getIntent_updateIntent
            { i0 with confidence := i0.confidence + w * (1 - i0.confidence) } hj1
          split at h
          · rename_i hcross
            split at h
            · exact Option.noConfusion h
            · rename_i st3 i3 hp
              simp only [Option.some.injEq, Prod.mk.injEq] at h
              rw [← h.1]
              have hpres3 := autoT _ _ _ _ _ _ _ hnd2 hp hYget
                (validateTransition_to_decision hnD hnR)
                (by
                  show (rank Stage.DECISION : ℤ) + 1 ≤ (rank i0.stage : ℤ)
                  have h1 := one_le_rank hnD hnR
                  have h0 : rank Stage.DECISION = 0 := rfl
                  omega)
              simpa using (presE.trans presU).trans hpres3
            · rename_i st3 e hp
              simp only [Option.some.injEq, Prod.mk.injEq] at h
              rw [← h.1]
              have hpres3 := autoT _ _ _ _ _ _ _ hnd2 hp hYget
                (validateTransition_to_decision hnD hnR)
                (by
                  show (rank Stage.DECISION : ℤ) + 1 ≤ (rank i0.stage : ℤ)
                  have h1 := one_le_rank hnD hnR
                  have h0 : rank Stage.DECISION = 0 := rfl
                  omega)
              simpa using (presE.trans presU).trans hpres3
          · split at h
            · rename_i hcross
              have hstE : i0.stage = .EXPLORATION := hcross.2
              split at h
              · exact Option.noConfusion h
              · rename_i st3 i3 hp
                simp only [Option.some.injEq, Prod.mk.injEq] at h
                rw [← h.1]
                have hpres3 := autoT _ _ _ _ _ _ _ hnd2 hp hYget
                  (by
                    show validateTransition i0.stage .REFINING = true
                    rw [hstE]
                    decide)
                  (by
                    show (rank Stage.REFINING : ℤ) + 1 ≤ (rank i0.stage : ℤ)
                    rw [hstE]
                    decide)
                simpa using (presE.trans presU).trans hpres3
              · rename_i st3 e hp
                simp only [Option.some.injEq, Prod.mk.injEq] at h
                rw [← h.1]
                have hpres3 := autoT _ _ _ _ _ _ _ hnd2 hp hYget
                  (by
                    show validateTransition i0.stage .REFINING = true
                    rw [hstE]
                    decide)
                  (by
                    show (rank Stage.REFINING : ℤ) + 1 ≤ (rank i0.stage : ℤ)
                    rw [hstE]
                    decide)
                simpa using (presE.trans presU).trans hpres3
            · simp only [Option.some.injEq, Prod.mk.injEq] at h
              rw [← h.1]
              simpa using presE.trans presU
    -- (3) propagateLoop
    · intro st rels c st' r hnd h
      rw [propagateLoop_succ] at h
      cases rels with
      | nil =>
        simp only [Option.some.injEq, Prod.mk.injEq] at h
        rw [← h.1]
        exact Pres.refl
      | cons rel rest =>
        simp only [] at h
        split at h
        · exact Option.noConfusion h
        · rename_i st1 e hadd
          simp only [Option.some.injEq, Prod.mk.injEq] at h
          rw [← h.1]
          exact ihA _ _ _ _ _ hnd hadd
        · rename_i st1 v hadd
          have presA : Pres 0 st st1 := ihA _ _ _ _ _ hnd hadd
          have presL : Pres 0 st1 st' := ihL _ _ _ _ _ (presA.nodup hnd) h
          simpa using presA.trans presL
    -- (4) propagateWeightUpwards
    · intro st id st' r hnd h
      rw [propagateWeightUpwards_succ] at h
      simp only [] at h
      have pres0 : Pres 1 st { st with trace := st.trace ++ [id] } := by
        refine ⟨Eq.refl _, Eq.refl _, le_refl _, ?_⟩
        have hmu0 : mu { st with trace := st.trace ++ [id] } = mu st := rfl
        unfold tcount
        simp only [List.length_append, List.length_cons, List.length_nil, hmu0]
        push_cast
        omega
      have hnd0 : IdsNodup { st with trace := st.trace ++ [id] } := hnd
      split at h
      · exact Option.noConfusion h
      · rename_i st1 e heval
        simp only [Option.some.injEq, Prod.mk.injEq] at h
        rw [← h.1]
        simpa using pres0.trans (ihE _ _ _ _ hnd0 heval)
      · rename_i st1 heval
        simp only [Option.some.injEq, Prod.mk.injEq] at h
        rw [← h.1]
        simpa using pres0.trans (ihE _ _ _ _ hnd0 heval)
      · rename_i st1 child heval
        have presE : Pres 0 { st with trace := st.trace ++ [id] } st1 :=
          ihE _ _ _ _ hnd0 heval
        have presL : Pres 0 st1 st' := ihL _ _ _ _ _ (presE.nodup hnd0) h
        simpa using (pres0.trans presE).trans presL
    -- (5) transitionState
    · intro st id tgt reason st' r hnd h
      rw [transitionState_succ] at h
      cases hget : getIntent st id with
      | none =>
        simp only [hget, Option.some.injEq, Prod.mk.injEq] at h
        rw [← h.1]
        refine ⟨Eq.refl _, Eq.refl _, ?_⟩
        intro i hi
        exact absurd hi (fun hc => Option.noConfusion hc)
      | some i0 =>
        simp only [hget] at h
        split at h
        · rename_i hval
          have hmuU := mu_updateIntent (appliedTransition st i0 tgt reason) hnd hget
          rw [appliedTransition_stage] at hmuU
          set st2 : St := (if tgt = .DECISION then
              enqueueForExecution (updateIntent st id (appliedTransition st i0 tgt reason))
                (appliedTransition st i0 tgt reason)
              else updateIntent st id (appliedTransition st i0 tgt reason)) with hst2
          have h2fields :
              st2.intents = (updateIntent st id (appliedTransition st i0 tgt reason)).intents ∧
              st2.relations = st.relations ∧ st2.trace = st.trace := by
            rw [hst2]
            split
            · exact ⟨(enqueueForExecution_fields _ _).1, (enqueueForExecution_fields _ _).2.1,
                (enqueueForExecution_fields _ _).2.2.2.1⟩
            · exact ⟨Eq.refl _, Eq.refl _, Eq.refl _⟩
          obtain ⟨h2i, h2r, h2t⟩ := h2fields
          have h2ids : st2.intents.map Intent.id = st.intents.map Intent.id := by
            rw [h2i]
            exact updateIntent_ids st id _
          have hnd2 : IdsNodup st2 := idsNodup_of_eq h2ids hnd
          have hmu2 : mu st2 = mu (updateIntent st id (appliedTransition st i0 tgt reason)) := by
            unfold mu
            rw [h2i]
          have ht2 : tcount st2 = st.trace.length + (mu st2 : ℤ) := by
            unfold tcount
            rw [h2t]
          have hts : tcount st = st.trace.length + (mu st : ℤ) := rfl
          split at h
          · exact Option.noConfusion h
          · rename_i st3 a hp
            simp only [Option.some.injEq, Prod.mk.injEq] at h
            rw [← h.1]
            have presP := ihP _ _ _ _ hnd2 hp
            refine ⟨presP.1.trans h2ids, presP.2.1.trans h2r, ?_⟩
            intro i hi hv
            have hii : i0 = i := Option.some.inj hi
            rw [← hii]
            have hmuP := presP.2.2.1
            have htP := presP.2.2.2
            constructor
            · omega
            · omega
          · rename_i st3 e hp
            simp only [Option.some.injEq, Prod.mk.injEq] at h
            rw [← h.1]
            have presP := ihP _ _ _ _ hnd2 hp
            refine ⟨presP.1.trans h2ids, presP.2.1.trans h2r, ?_⟩
            intro i hi hv
            have hii : i0 = i := Option.some.inj hi
            rw [← hii]
            have hmuP := presP.2.2.1
            have htP := presP.2.2.2
            constructor
            · omega
            · omega
        · rename_i hval
          simp only [Option.some.injEq, Prod.mk.injEq] at h
          rw [← h.1]
          refine ⟨Eq.refl _, Eq.refl _, ?_⟩
          intro i hi hv
          have : i0 = i := Option.some.inj hi
          rw [← this] at hv
          exact absurd hv hval

/-- Sufficient fuel: with fuel `(μ+1)·(R+6)` — `μ` the total rank of the
stored intents and `R` the number of stored relations — every engine
operation completes without exhausting the fuel and without throwing,
for every store, cyclic relation graphs included.  The key invariant is
that every internal transition strictly decreases `μ`. -/
theorem kernel_sufficient (fuel : ℕ) (env : Env) :
    (∀ (m : ℕ) (st : St) (id : String), IdsNodup st → mu st ≤ m →
      (m + 1) * (st.relations.length + 6) ≤ fuel →
      ∃ st', propagateWeightUpwards env fuel st id = some (st', .ok ())) ∧
    (∀ (m : ℕ) (st : St) (id : String), IdsNodup st → mu st ≤ m →
      m * (st.relations.length + 6) + 3 ≤ fuel →
      ∃ st' r, evaluateConfidence env fuel st id = some (st', .ok r)) ∧
    (∀ (m : ℕ) (st : St) (id : String) (tgt : Stage) (reason : Option String) (i : Intent),
      IdsNodup st → mu st ≤ m → getIntent st id = some i →
      validateTransition i.stage tgt = true → rank tgt < rank i.stage →
      m * (st.relations.length + 6) + 2 ≤ fuel →
      ∃ st' j, transitionState env fuel st id tgt reason = some (st', .ok j)) ∧
    (∀ (m : ℕ) (st : St) (id : String) (w : ℚ), IdsNodup st → mu st ≤ m →
      m * (st.relations.length + 6) + 4 ≤ fuel →
      ∃ st' r, addEvidence env fuel st id w = some (st', .ok r)) ∧
    (∀ (m : ℕ) (st : St) (rels : List Relation) (c : ℚ), IdsNodup st → mu st ≤ m →
      m * (st.relations.length + 6) + 5 + rels.length ≤ fuel →
      ∃ st', propagateLoop env fuel st rels c = some (st', .ok ())) := by
  induction fuel with
  | zero =>
    refine ⟨?_, ?_, ?_, ?_, ?_⟩
    · intro m st id _ _ hfuel
      rw [Nat.succ_mul] at hfuel
      omega
    · intro m st id _ _ hfuel
      omega
    · intro m st id tgt reason i _ _ _ _ _ hfuel
      omega
    · intro m st id w _ _ hfuel
      omega
    · intro m st rels c _ _ hfuel
      omega
  | succ fuel ih =>
    obtain ⟨ihP, ihE, ihT, ihA, ihL⟩ := ih
    obtain ⟨pE, pA, pL, pP, pT⟩ := kernel_preserves fuel env
    refine ⟨?_, ?_, ?_, ?_, ?_⟩
    -- (a) propagateWeightUpwards
    · intro m st id hnd hmu hfuel
      rw [Nat.succ_mul] at hfuel
      obtain ⟨st1, r, heval⟩ := ihE m { st with trace := st.trace ++ [id] } id hnd hmu
        (by
          show m * (st.relations.length + 6) + 3 ≤ fuel
          omega)
      have presE : Pres 0 { st with trace := st.trace ++ [id] } st1 :=
        pE _ _ _ _ hnd heval
      cases r with
      | none =>
        refine ⟨st1, ?_⟩
        rw [propagateWeightUpwards_succ]
        simp only [heval]
      | some child =>
        have hR1 : st1.relations.length = st.relations.length := by
          rw [presE.2.1]
        obtain ⟨st2, hloop⟩ := ihL m st1 (st1.relations.filter (fun r =>
            r.targetType == "intent" && r.targetId == id && r.sourceType == "intent"))
          child.confidence (presE.nodup hnd) (le_trans presE.2.2.1 hmu)
          (by
            have hlen := List.length_filter_le (fun r =>
              r.targetType == "intent" && r.targetId == id && r.sourceType == "intent")
              st1.relations
            rw [hR1]
            rw [hR1] at hlen
            omega)
        refine ⟨st2, ?_⟩
        rw [propagateWeightUpwards_succ]
        simp only [heval]
        exact hloop
    -- (b) evaluateConfidence
    · intro m st id hnd hmu hfuel
      cases hget : getIntent st id with
      | none =>
        refine ⟨st, none, ?_⟩
        rw [evaluateConfidence_succ]
        simp [hget]
      | some i0 =>
        by_cases hterm : i0.stage = .DECISION ∨ i0.stage = .REFUTED
        · refine ⟨st, some i0, ?_⟩
          rw [evaluateConfidence_succ]
          simp only [hget]
          rw [if_pos hterm]
        · have hnD : i0.stage ≠ .DECISION := fun hc => hterm (Or.inl hc)
          have hnR : i0.stage ≠ .REFUTED := fun hc => hterm (Or.inr hc)
          have hrankpos : rank Stage.REFUTED < rank i0.stage := by
            have h1 := one_le_rank hnD hnR
            have h0 : rank Stage.REFUTED = 0 := rfl
            omega
          by_cases hd : 1 < daysPassedOf st i0
          · set X : Intent := { i0 with
              confidence := i0.confidence * env.pow (19/20) (daysPassedOf st i0) } with hX
            have presU : Pres 0 st (updateIntent st id X) :=
              pres_update_same_stage X hnd hget rfl
            have hXget := getIntent_updateIntent X hget
            by_cases hpr : X.confidence < 1/20 ∧ X.stage ≠ .REFUTED
            · obtain ⟨st2, j, htr⟩ := ihT m (updateIntent st id X) id .REFUTED
                (some "Archived due to low confidence (temporal decay)")
                { X with id := id, updatedAt := st.now }
                (presU.nodup hnd) (le_trans presU.2.2.1 hmu) hXget
                (validateTransition_to_refuted hnD hnR) hrankpos
                (by
                  show m * (st.relations.length + 6) + 2 ≤ fuel
                  omega)
              refine ⟨st2, some j, ?_⟩
              rw [evaluateConfidence_succ]
              simp only [hget]
              rw [if_neg hterm]
              simp only [if_pos hd, ← hX]
              rw [if_pos hpr, htr]
            · refine ⟨updateIntent st id X, some X, ?_⟩
              rw [evaluateConfidence_succ]
              simp only [hget]
              rw [if_neg hterm]
              simp only [if_pos hd, ← hX]
              rw [if_neg hpr]
          · by_cases hpr : i0.confidence < 1/20 ∧ i0.stage ≠ .REFUTED
            · obtain ⟨st2, j, htr⟩ := ihT m st id .REFUTED
                (some "Archived due to low confidence (temporal decay)") i0
                hnd hmu hget (validateTransition_to_refuted hnD hnR) hrankpos
                (by omega)
              refine ⟨st2, some j, ?_⟩
              rw [evaluateConfidence_succ]
              simp only [hget]
              rw [if_neg hterm]
              simp only [if_neg hd]
              rw [if_pos hpr, htr]
            · refine ⟨st, some i0, ?_⟩
              rw [evaluateConfidence_succ]
              simp only [hget]
              rw [if_neg hterm]
              simp only [if_neg hd]
              rw [if_neg hpr]
    -- (c) transitionState
    · intro m st id tgt reason i hnd hmu hget hval hrank hfuel
      have hrle := rank_le_mu hget
      have hm1 : 1 ≤ m := by omega
      have hmuU := mu_updateIntent (appliedTransition st i tgt reason) hnd hget
      rw [appliedTransition_stage] at hmuU
      set st2 : St := (if tgt = .DECISION then
          enqueueForExecution (updateIntent st id (appliedTransition st i tgt reason))
            (appliedTransition st i tgt reason)
          else updateIntent st id (appliedTransition st i tgt reason)) with hst2
      have h2fields :
          st2.intents = (updateIntent st id (appliedTransition st i tgt reason)).intents ∧
          st2.relations = st.relations := by
        rw [hst2]
        split
        · exact ⟨(enqueueForExecution_fields _ _).1, (enqueueForExecution_fields _ _).2.1⟩
        · exact ⟨Eq.refl _, Eq.refl _⟩
      have h2ids : st2.intents.map Intent.id = st.intents.map Intent.id := by
        rw [h2fields.1]
        exact updateIntent_ids st id _
      have hnd2 : IdsNodup st2 := idsNodup_of_eq h2ids hnd
      have hmu2 : mu st2 = mu (updateIntent st id (appliedTransition st i tgt reason)) := by
        unfold mu
        rw [h2fields.1]
      have hmu2m : mu st2 ≤ m - 1 := by omega
      obtain ⟨st3, hprop⟩ := ihP (m - 1) st2 id hnd2 hmu2m
        (by
          rw [Nat.sub_add_cancel hm1]
          have : st2.relations.length = st.relations.length := by rw [h2fields.2]
          rw [this]
          omega)
      refine ⟨st3, appliedTransition st i tgt reason, ?_⟩
      rw [transitionState_succ]
      simp only [hget]
      rw [if_pos hval]
      simp only [← hst2]
      rw [hprop]
    -- (d) addEvidence
    · intro m st id w hnd hmu hfuel
      obtain ⟨st1, r, heval⟩ := ihE m st id hnd hmu (by omega)
      have presE : Pres 0 st st1 := pE _ _ _ _ hnd heval
      cases r with
      | none =>
        refine ⟨st1, none, ?_⟩
        rw [addEvidence_succ]
        simp only [heval]
      | some i0 =>
        by_cases hterm : i0.stage = .DECISION ∨ i0.stage = .REFUTED
        · refine ⟨st1, some i0, ?_⟩
          rw [addEvidence_succ]
          simp only [heval]
          rw [if_pos hterm]
        · have hnD : i0.stage ≠ .DECISION := fun hc => hterm (Or.inl hc)
          have hnR : i0.stage ≠ .REFUTED := fun hc => hterm (Or.inr hc)
          obtain ⟨j1, hj1, hj1s⟩ := (evaluateConfidence_post heval).resolve_left hnR
          set Y : Intent := { i0 with
            confidence := i0.confidence + w * (1 - i0.confidence) } with hY
          have presU : Pres 0 st1 (updateIntent st1 id Y) :=
            pres_update_same_stage Y (presE.nodup hnd) hj1 hj1s.symm
          have hYget := getIntent_updateIntent Y hj1
          have hbound2 : m * (st.relations.length + 6) + 2 ≤ fuel := by omega
          have hmuY : mu (updateIntent st1 id Y) ≤ m :=
            le_trans presU.2.2.1 (le_trans presE.2.2.1 hmu)
          have hboundY : m * ((updateIntent st1 id Y).relations.length + 6) + 2 ≤ fuel := by
            show m * (st1.relations.length + 6) + 2 ≤ fuel
            rw [presE.2.1]
            exact hbound2
          by_cases h95 : 19/20 ≤ Y.confidence ∧ Y.stage ≠ .DECISION
          · obtain ⟨st3, j3, htr⟩ := ihT m (updateIntent st1 id Y) id .DECISION
              (some "Confidence exceeded P>0.95 execution threshold")
              { Y with id := id, updatedAt := st1.now }
              (presU.nodup (presE.nodup hnd)) hmuY hYget
              (validateTransition_to_decision hnD hnR)
              (by
                show rank Stage.DECISION < rank i0.stage
                have h1 := one_le_rank hnD hnR
                have h0 : rank Stage.DECISION = 0 := rfl
                omega)
              hboundY
            refine ⟨st3, some Y, ?_⟩
            rw [addEvidence_succ]
            simp only [heval]
            rw [if_neg hterm]
            simp only [← hY]
            rw [if_pos h95, htr]
          · by_cases h70 : 7/10 ≤ Y.confidence ∧ Y.stage = .EXPLORATION
            · have hstE : i0.stage = .EXPLORATION := h70.2
              obtain ⟨st3, j3, htr⟩ := ihT m (updateIntent st1 id Y) id .REFINING
                (some "Confidence exceeded P>0.70 refinement threshold")
                { Y with id := id, updatedAt := st1.now }
                (presU.nodup (presE.nodup hnd)) hmuY hYget
                (by
                  show validateTransition i0.stage .REFINING = true
                  rw [hstE]
                  decide)
                (by
                  show rank Stage.REFINING < rank i0.stage
                  rw [hstE]
                  decide)
                hboundY
              refine ⟨st3, some Y, ?_⟩
              rw [addEvidence_succ]
              simp only [heval]
              rw [if_neg hterm]
              simp only [← hY]
              rw [if_neg h95, if_pos h70, htr]
            · refine ⟨updateIntent st1 id Y, some Y, ?_⟩
              rw [addEvidence_succ]
              simp only [heval]
              rw [if_neg hterm]
              simp only [← hY]
              rw [if_neg h95, if_neg h70]
    -- (e) propagateLoop
    · intro m st rels c hnd hmu hfuel
      cases rels with
      | nil =>
        refine ⟨st, ?_⟩
        rw [propagateLoop_succ]
      | cons rel rest =>
        obtain ⟨st1, r, hadd⟩ := ihA m st rel.sourceId
          (c * match rel.weight with
            | none => 1/2
            | some w => if w = 0 then 1/2 else w)
          hnd hmu
          (by
            simp only [List.length_cons] at hfuel
            omega)
        have presA : Pres 0 st st1 := pA _ _ _ _ _ hnd hadd
        obtain ⟨st2, hloop⟩ := ihL m st1 rest c (presA.nodup hnd)
          (le_trans presA.2.2.1 hmu)
          (by
            have hR1 : st1.relations.length = st.relations.length := by rw [presA.2.1]
            rw [hR1]
            simp only [List.length_cons] at hfuel
            omega)
        refine ⟨st2, ?_⟩
        rw [propagateLoop_succ]
        simp only [hadd]
        exact hloop

theorem rank_le_two (s : Stage) : rank s ≤ 2 := by
  cases s <;> decide

theorem mu_le_two_mul (st : St) : mu st ≤ 2 * st.intents.length := by
  have key : ∀ l : List Intent, (l.map (fun i => rank i.stage)).sum ≤ 2 * l.length := by
    intro l
    induction l with
    | nil => simp
    | cons a t ih =>
      simp only [List.map_cons, List.sum_cons, List.length_cons]
      have := rank_le_two a.stage
      omega
  exact key st.intents

/-! ### C2: termination of the upward propagation pass -/

/-- A two-intent store whose relation graph is a cycle:
`A → B` and `B → A`, both intent-to-intent edges of weight 1. -/
def cycleSt : St :=
  mkSt [mkIntent "A" .EXPLORATION (13/20), mkIntent "B" .EXPLORATION (1/5)]
    [{ sourceType := "intent", sourceId := "A", targetType := "intent", targetId := "B",
       weight := some 1 },
     { sourceType := "intent", sourceId := "B", targetType := "intent", targetId := "A",
       weight := some 1 }] 0

/-- C2 counterexample: on the 2-node cyclic graph of `cycleSt`, one
top-level propagation pass terminates but enters
`propagateWeightUpwards` three times (B, then A, then B again) — more
visits than the graph has intents, since there is no visited-set. -/
theorem propagation_visit_count_cex :
    (propagateWeightUpwards witEnv 40 cycleSt "B").map (fun p => p.1.trace) =
      some ["B", "A", "B"] ∧
    cycleSt.intents.length = 2 ∧ (2 : ℕ) < 3 := by
  refine ⟨?_, by decide, by decide⟩
  decide

/-- C2 (amended): for every finite relation graph — cyclic ones
included — a single top-level upward propagation pass terminates: fuel
`(μ+1)·(R+6)` suffices (where `μ ≤ 2·n` is the total stage rank and `R`
the relation count), every internal transition strictly decreasing `μ`.
The pass makes at most `1 + 2·n` propagation visits, where `n` is the
number of stored intents; it can visit the same intent more than once
(no visited-set), so the visit count is not bounded by `n` itself. -/
theorem propagateWeightUpwards_terminates (env : Env) (st : St) (id : String) (fuel : ℕ)
    (hnd : IdsNodup st) (hfuel : (mu st + 1) * (st.relations.length + 6) ≤ fuel) :
    ∃ st', propagateWeightUpwards env fuel st id = some (st', .ok ()) ∧
      (st'.trace.length : ℤ) ≤ st.trace.length + 1 + 2 * st.intents.length := by
  obtain ⟨st', hrun⟩ := (kernel_sufficient fuel env).1 (mu st) st id hnd (le_refl _) hfuel
  have presP : Pres 1 st st' := (kernel_preserves fuel env).2.2.2.1 _ _ _ _ hnd hrun
  refine ⟨st', hrun, ?_⟩
  have ht := presP.2.2.2
  have hb := mu_le_two_mul st
  unfold tcount at ht
  omega

/-- Witness for C2 (amended): the pass on the cyclic `cycleSt` finishes
within the fuel bound and its visit count respects `1 + 2·n`. -/
theorem propagateWeightUpwards_terminates_witness :
    ∃ st', propagateWeightUpwards witEnv 40 cycleSt "B" = some (st', .ok ()) ∧
      (st'.trace.length : ℤ) ≤ cycleSt.trace.length + 1 + 2 * cycleSt.intents.length :=
  propagateWeightUpwards_terminates witEnv cycleSt "B" 40 (by decide) (by decide)

/-- An `evaluateConfidence` run on a non-terminal intent with at most
one day elapsed and confidence at or above the pruning bound is an
identity: no decay, no pruning. -/
theorem evaluateConfidence_nodecay {env : Env} {fuel : ℕ} {st : St} {id : String}
    {i : Intent} (hget : getIntent st id = some i)
    (hD : i.stage ≠ .DECISION) (hR : i.stage ≠ .REFUTED)
    (hd : ¬ 1 < daysPassedOf st i) (hc : 1/20 ≤ i.confidence) :
    evaluateConfidence env (fuel + 1) st id = some (st, .ok (some i)) := by
  rw [evaluateConfidence_succ]
  simp only [hget]
  rw [if_neg (by
    rintro (hx | hx)
    · exact hD hx
    · exact hR hx)]
  simp only [if_neg hd]
  rw [if_neg (fun hcon => absurd hc (not_le.mpr hcon.1))]

/-! ### C4: the saturating evidence update -/

/-- A state holding one exploratory intent whose confidence `0.04` is
already below the pruning bound. -/
def pruneSt : St := mkSt [mkIntent "P" .EXPLORATION (1/25)] [] 0

/-- C4 counterexample: `addEvidence` is not monotonically non-decreasing
for nonnegative evidence: on an intent of confidence `0.04`, a call with
evidence `0.9` first prunes the intent to REFUTED (confidence `0`), so
the confidence strictly decreases even though the evidence is
nonnegative. -/
theorem addEvidence_prune_decreases_cex :
    confOfEval (addEvidence witEnv 10 pruneSt "P" (9/10)) = some 0 ∧
    stageOfEval (addEvidence witEnv 10 pruneSt "P" (9/10)) = some .REFUTED ∧
    (0 : ℚ) < 1/25 ∧ (0 : ℚ) ≤ 9/10 := by
  refine ⟨?_, ?_, by norm_num, by norm_num⟩
  · decide
  · decide

/-- The empty initial store used by the concrete two-call scenario. -/
def scenarioSt0 : St :=
  (createIntent (mkSt [] [] 0)
    { title := "Test", description := "Test", precision := some (1/10) }).1

/-- The first `addEvidence(0.9)` call of the scenario. -/
def scenarioRun1 : EvalRes := addEvidence witEnv 10 scenarioSt0 "uuid-0" (9/10)

/-- The store after the first call. -/
def scenarioSt1 : St := stOfEval scenarioRun1 scenarioSt0

/-- The second `addEvidence(0.9)` call of the scenario. -/
def scenarioRun2 : EvalRes := addEvidence witEnv 10 scenarioSt1 "uuid-0" (9/10)

/-- C4 (amended): on the non-pruned path — a non-terminal intent with no
decay due and confidence in `[0.05, 1]` — `addEvidence` applies exactly
the saturating rule `confidence + w·(1 − confidence)`, which never
decreases the confidence for `w ≥ 0`; and the concrete scenario holds
exactly: from prior `0.1`, one `addEvidence(0.9)` yields confidence
`0.91` and stage REFINING, and a second one yields confidence `0.991 >
0.95` and stage DECISION. -/
theorem addEvidence_saturating :
    (∀ (env : Env) (fuel : ℕ) (st : St) (id : String) (w : ℚ) (i : Intent),
      IdsNodup st → getIntent st id = some i →
      i.stage ≠ .DECISION → i.stage ≠ .REFUTED →
      ¬ 1 < daysPassedOf st i → 1/20 ≤ i.confidence →
      0 ≤ w → i.confidence ≤ 1 →
      mu st * (st.relations.length + 6) + 4 ≤ fuel →
      ∃ st' j, addEvidence env fuel st id w = some (st', .ok (some j)) ∧
        j.confidence = i.confidence + w * (1 - i.confidence) ∧
        i.confidence ≤ j.confidence) ∧
    (confOfEval scenarioRun1 = some (91/100) ∧
     (getIntent scenarioSt1 "uuid-0").map Intent.stage = some .REFINING ∧
     (getIntent scenarioSt1 "uuid-0").map Intent.confidence = some (91/100) ∧
     (getIntent (stOfEval scenarioRun2 scenarioSt0) "uuid-0").map Intent.confidence =
       some (991/1000) ∧
     (getIntent (stOfEval scenarioRun2 scenarioSt0) "uuid-0").map Intent.stage =
       some .DECISION ∧
     (19/20 : ℚ) < 991/1000) := by
  constructor
  · intro env fuel st id w i hnd hget hD hR hd hc hw hc1 hfuel
    obtain ⟨f, rfl⟩ : ∃ f, fuel = f + 2 := ⟨fuel - 2, by omega⟩
    have hmono : i.confidence ≤ i.confidence + w * (1 - i.confidence) := by
      have : 0 ≤ w * (1 - i.confidence) := mul_nonneg hw (by linarith)
      linarith
    have hterm : ¬ (i.stage = .DECISION ∨ i.stage = .REFUTED) := by
      rintro (hx | hx)
      · exact hD hx
      · exact hR hx
    have heval : evaluateConfidence env (f + 1) st id = some (st, .ok (some i)) :=
      evaluateConfidence_nodecay hget hD hR hd hc
    have hYget := getIntent_updateIntent
      { i with confidence := i.confidence + w * (1 - i.confidence) } hget
    have presU : Pres 0 st (updateIntent st id
        { i with confidence := i.confidence + w * (1 - i.confidence) }) :=
      pres_update_same_stage _ hnd hget rfl
    have hboundY : mu st *
        ((updateIntent st id
          { i with confidence := i.confidence + w * (1 - i.confidence) }).relations.length
            + 6) + 2 ≤ f + 1 := by
      show mu st * (st.relations.length + 6) + 2 ≤ f + 1
      omega
    set Y : Intent := { i with confidence := i.confidence + w * (1 - i.confidence) } with hY
    by_cases h95 : 19/20 ≤ Y.confidence ∧ Y.stage ≠ .DECISION
    · obtain ⟨st3, j3, htr⟩ := (kernel_sufficient (f + 1) env).2.2.1 (mu st)
        (updateIntent st id Y) id .DECISION
        (some "Confidence exceeded P>0.95 execution threshold")
        { Y with id := id, updatedAt := st.now }
        (presU.nodup hnd) (le_of_eq (by
          have := mu_eq_of_update_same_stage Y hnd hget rfl
          exact this)) hYget
        (validateTransition_to_decision hD hR)
        (by
          show rank Stage.DECISION < rank i.stage
          have h1 := one_le_rank hD hR
          have h0 : rank Stage.DECISION = 0 := rfl
          omega)
        hboundY
      refine ⟨st3, Y, ?_, rfl, hmono⟩
      rw [addEvidence_succ]
      simp only [heval]
      rw [if_neg hterm]
      simp only [← hY]
      rw [if_pos h95, htr]
    · by_cases h70 : 7/10 ≤ Y.confidence ∧ Y.stage = .EXPLORATION
      · have hstE : i.stage = .EXPLORATION := h70.2
        obtain ⟨st3, j3, htr⟩ := (kernel_sufficient (f + 1) env).2.2.1 (mu st)
          (updateIntent st id Y) id .REFINING
          (some "Confidence exceeded P>0.70 refinement threshold")
          { Y with id := id, updatedAt := st.now }
          (presU.nodup hnd) (le_of_eq (mu_eq_of_update_same_stage Y hnd hget rfl)) hYget
          (by
            show validateTransition i.stage .REFINING = true
            rw [hstE]
            decide)
          (by
            show rank Stage.REFINING < rank i.stage
            rw [hstE]
            decide)
          hboundY
        refine ⟨st3, Y, ?_, rfl, hmono⟩
        rw [addEvidence_succ]
        simp only [heval]
        rw [if_neg hterm]
        simp only [← hY]
        rw [if_neg h95, if_pos h70, htr]
      · refine ⟨updateIntent st id Y, Y, ?_, rfl, hmono⟩
        rw [addEvidence_succ]
        simp only [heval]
        rw [if_neg hterm]
        simp only [← hY]
        rw [if_neg h95, if_neg h70]
  · refine ⟨?_, ?_, ?_, ?_, ?_, by norm_num⟩
    · decide
    · decide
    · decide
    · decide
    · decide

/-- A state holding one exploratory intent of confidence `0.5` for the
C4 witness. -/
def c4WitSt : St := mkSt [mkIntent "W" .EXPLORATION (1/2)] [] 0

/-- Witness for C4 (amended): applying evidence `0.2` to the intent of
`c4WitSt` yields exactly `0.5 + 0.2·0.5 = 0.6 ≥ 0.5`. -/
theorem addEvidence_saturating_witness :
    ∃ st' j, addEvidence witEnv 16 c4WitSt "W" (1/5) = some (st', .ok (some j)) ∧
      j.confidence = (1/2 : ℚ) + (1/5) * (1 - 1/2) ∧
      ((1/2 : ℚ)) ≤ j.confidence :=
  addEvidence_saturating.1 witEnv 16 c4WitSt "W" (1/5) (mkIntent "W" .EXPLORATION (1/2))
    (by decide) (by decide) (by decide) (by decide) (by decide) (by decide)
    (by norm_num) (by decide) (by decide)

/-! ### C6: REFUTED intents and the zero-confidence bound -/

/-- C6 counterexample: `createIntent` persists a caller-supplied REFUTED
stage together with a nonzero confidence, so "every intent in stage
REFUTED has confidence exactly 0" fails, and it is not preserved by
every operation. -/
theorem createIntent_refuted_nonzero_cex :
    (createIntent (mkSt [] [] 0)
      { stage := some .REFUTED, precision := some (1/2) }).2.stage = .REFUTED ∧
    (createIntent (mkSt [] [] 0)
      { stage := some .REFUTED, precision := some (1/2) }).2.confidence = 1/2 ∧
    ¬ ((1 : ℚ)/2 = 0) ∧
    (createIntent (mkSt [] [] 0)
      { stage := some .REFUTED, precision := some (1/2) }).1.intents =
      [(createIntent (mkSt [] [] 0)
        { stage := some .REFUTED, precision := some (1/2) }).2] := by
  exact ⟨rfl, by decide, by norm_num, rfl⟩

/-- C6 (amended): every transition into REFUTED performed by
`transitionState` — in particular the decay-pruning transition — zeroes
the confidence; `evaluateConfidence` and `addEvidence` never touch a
REFUTED intent; and `evaluateConfidence` on a non-terminal intent whose
(possibly decayed) confidence falls below `0.05` forces it to REFUTED
with confidence exactly `0`.  However `createIntent` can persist a
REFUTED intent with nonzero confidence (see the counterexample), so the
invariant is not established at creation. -/
theorem refuted_zero_confidence :
    (∀ (env : Env) (fuel : ℕ) (st : St) (id : String) (reason : Option String)
      (st' : St) (j : Intent),
      transitionState env fuel st id .REFUTED reason = some (st', .ok j) →
      j.confidence = 0 ∧ j.stage = .REFUTED) ∧
    (∀ (env : Env) (fuel : ℕ) (st : St) (id : String) (w : ℚ) (i : Intent),
      getIntent st id = some i → i.stage = .REFUTED →
      evaluateConfidence env (fuel + 1) st id = some (st, .ok (some i)) ∧
      addEvidence env (fuel + 2) st id w = some (st, .ok (some i))) ∧
    (∀ (env : Env) (fuel : ℕ) (st : St) (id : String) (i : Intent),
      IdsNodup st → getIntent st id = some i →
      i.stage ≠ .DECISION → i.stage ≠ .REFUTED →
      (if 1 < daysPassedOf st i then
        i.confidence * env.pow (19/20) (daysPassedOf st i) else i.confidence) < 1/20 →
      mu st * (st.relations.length + 6) + 3 ≤ fuel →
      ∃ st' j, evaluateConfidence env fuel st id = some (st', .ok (some j)) ∧
        j.stage = .REFUTED ∧ j.confidence = 0) := by
  refine ⟨?_, ?_, ?_⟩
  · intro env fuel st id reason st' j h
    obtain ⟨i, hget, hval, hj⟩ := transitionState_post h
    rw [hj]
    exact ⟨appliedTransition_refuted st i reason, appliedTransition_stage st i .REFUTED reason⟩
  · intro env fuel st id w i hget hstage
    have heval : evaluateConfidence env (fuel + 1) st id = some (st, .ok (some i)) := by
      rw [evaluateConfidence_succ]
      simp only [hget]
      rw [if_pos (Or.inr hstage)]
    refine ⟨heval, ?_⟩
    rw [addEvidence_succ]
    simp only [heval]
    rw [if_pos (Or.inr hstage)]
  · intro env fuel st id i hnd hget hD hR hdec hfuel
    obtain ⟨f, rfl⟩ : ∃ f, fuel = f + 1 := ⟨fuel - 1, by omega⟩
    have hterm : ¬ (i.stage = .DECISION ∨ i.stage = .REFUTED) := by
      rintro (hx | hx)
      · exact hD hx
      · exact hR hx
    have hrankpos : rank Stage.REFUTED < rank i.stage := by
      have h1 := one_le_rank hD hR
      have h0 : rank Stage.REFUTED = 0 := rfl
      omega
    by_cases hd : 1 < daysPassedOf st i
    · rw [if_pos hd] at hdec
      set X : Intent := { i with
        confidence := i.confidence * env.pow (19/20) (daysPassedOf st i) } with hX
      have presU : Pres 0 st (updateIntent st id X) :=
        pres_update_same_stage X hnd hget rfl
      have hXget := getIntent_updateIntent X hget
      have hpr : X.confidence < 1/20 ∧ X.stage ≠ .REFUTED := ⟨hdec, hR⟩
      obtain ⟨st2, j, htr⟩ := (kernel_sufficient f env).2.2.1 (mu st)
        (updateIntent st id X) id .REFUTED
        (some "Archived due to low confidence (temporal decay)")
        { X with id := id, updatedAt := st.now }
        (presU.nodup hnd) (le_of_eq (mu_eq_of_update_same_stage X hnd hget rfl)) hXget
        (validateTransition_to_refuted hD hR) hrankpos
        (by
          show mu st * (st.relations.length + 6) + 2 ≤ f
          omega)
      obtain ⟨i', _, _, hj⟩ := transitionState_post htr
      refine ⟨st2, j, ?_, by rw [hj]; exact appliedTransition_stage _ _ _ _,
        by rw [hj]; exact appliedTransition_refuted _ _ _⟩
      rw [evaluateConfidence_succ]
      simp only [hget]
      rw [if_neg hterm]
      simp only [if_pos hd, ← hX]
      rw [if_pos hpr, htr]
    · rw [if_neg hd] at hdec
      have hpr : i.confidence < 1/20 ∧ i.stage ≠ .REFUTED := ⟨hdec, hR⟩
      obtain ⟨st2, j, htr⟩ := (kernel_sufficient f env).2.2.1 (mu st) st id .REFUTED
        (some "Archived due to low confidence (temporal decay)") i
        hnd (le_refl _) hget (validateTransition_to_refuted hD hR) hrankpos
        (by omega)
      obtain ⟨i', _, _, hj⟩ := transitionState_post htr
      refine ⟨st2, j, ?_, by rw [hj]; exact appliedTransition_stage _ _ _ _,
        by rw [hj]; exact appliedTransition_refuted _ _ _⟩
      rw [evaluateConfidence_succ]
      simp only [hget]
      rw [if_neg hterm]
      simp only [if_neg hd]
      rw [if_pos hpr, htr]

/-- Witness for C6 (amended): the intent of `pruneSt` (confidence
`0.04`, below the bound without any decay) is forced to REFUTED with
confidence exactly `0`. -/
theorem refuted_zero_confidence_witness :
    ∃ st' j, evaluateConfidence witEnv 15 pruneSt "P" = some (st', .ok (some j)) ∧
      j.stage = .REFUTED ∧ j.confidence = 0 :=
  refuted_zero_confidence.2.2 witEnv 15 pruneSt "P" (mkIntent "P" .EXPLORATION (1/25))
    (by decide) (by decide) (by decide) (by decide) (by decide) (by decide)

/-! ### C10: same-stage DECISION transitions re-stage payloads -/

/-- C10: a `transitionState` call whose target equals the current stage
succeeds but is not a pure no-op: for an intent already in DECISION with
confidence at or above the execution threshold (and no intent parents,
so the upward pass adds nothing further), the call appends another
history entry and invokes the orchestrator again, growing the execution
queue by exactly one more staged payload for this intent. -/
theorem transitionState_same_stage_decision_restages (env : Env) (fuel : ℕ) (st : St)
    (intentId : String) (reason : Option String) (i : Intent) (p : Params)
    (hget : getIntent st intentId = some i) (hstage : i.stage = .DECISION)
    (hmeta : st.meta = some { parameters := some p })
    (hconf : p.executionThreshold ≤ i.confidence)
    (hnopar : st.relations.filter (fun r =>
      r.targetType == "intent" && r.targetId == intentId && r.sourceType == "intent") = []) :
    ∃ st' j, transitionState env (fuel + 3) st intentId .DECISION reason = some (st', .ok j) ∧
      j.stage = .DECISION ∧ j.stageHistory.length = i.stageHistory.length + 1 ∧
      st'.queue.length = st.queue.length + 1 ∧
      ∃ pl, st'.queue = st.queue ++ [pl] ∧ pl.status = "staged" ∧
        pl.intent_source_id = i.id := by
  have hval : validateTransition i.stage .DECISION = true := by rw [hstage]; decide
  set i3 := appliedTransition st i .DECISION reason with hi3
  have hi3stage : i3.stage = .DECISION := by simp [appliedTransition, hi3]
  have hi3conf : i3.confidence = max i.confidence (19/20) := by simp [appliedTransition, hi3]
  have hi3hist : i3.stageHistory.length = i.stageHistory.length + 1 := by
    simp [appliedTransition, hi3]
  have hi3id : i3.id = i.id := by simp [appliedTransition, hi3]
  set st1 := updateIntent st intentId i3 with hst1
  have hm1 : st1.meta = some { parameters := some p } := hmeta
  have hsys : getSystemParameters st1 = some (st1, p) := by
    unfold getSystemParameters
    rw [hm1]
  have hnotlt : ¬ i3.confidence < p.executionThreshold := by
    rw [hi3conf]
    exact not_lt.mpr (le_trans hconf (le_max_left _ _))
  set st2 := enqueueForExecution st1 i3 with hst2
  have h2q : ∃ pl, st2.queue = st.queue ++ [pl] ∧ pl.status = "staged" ∧
      pl.intent_source_id = i3.id := by
    rw [hst2]
    unfold enqueueForExecution
    simp only [hsys]
    rw [if_neg hnotlt]
    exact ⟨_, rfl, rfl, rfl⟩
  have h2ints : st2.intents = st1.intents := by
    rw [hst2]
    exact (enqueueForExecution_fields st1 i3).1
  have h2rels : st2.relations = st.relations := by
    rw [hst2]
    exact (enqueueForExecution_fields st1 i3).2.1
  set st0 : St := { st2 with trace := st2.trace ++ [intentId] } with hst0
  have hgetI3 : getIntent st1 intentId = some { i3 with id := intentId, updatedAt := st.now } :=
    getIntent_updateIntent i3 hget
  have hget0 : getIntent st0 intentId =
      some { i3 with id := intentId, updatedAt := st.now } := by
    unfold getIntent at hgetI3 ⊢
    rw [show st0.intents = st1.intents from h2ints]
    exact hgetI3
  have heval : evaluateConfidence env (fuel + 1) st0 intentId =
      some (st0, .ok (some { i3 with id := intentId, updatedAt := st.now })) := by
    rw [evaluateConfidence_succ]
    simp only [hget0]
    rw [if_pos]
    exact Or.inl (by simpa using hi3stage)
  have hprop : propagateWeightUpwards env (fuel + 2) st2 intentId = some (st0, .ok ()) := by
    rw [propagateWeightUpwards_succ]
    simp only [← hst0, heval]
    rw [show st0.relations = st.relations from h2rels, hnopar, propagateLoop_succ]
  refine ⟨st0, i3, ?_, hi3stage, hi3hist, ?_, ?_⟩
  · rw [show fuel + 3 = (fuel + 2) + 1 from rfl, transitionState_succ]
    simp only [hget, hval, if_true, eq_self_iff_true]
    rw [← hst1, ← hst2, hprop]
  · obtain ⟨pl, hq, _, _⟩ := h2q
    have : st0.queue = st2.queue := rfl
    rw [this, hq]
    simp
  · obtain ⟨pl, hq, hs, hid⟩ := h2q
    exact ⟨pl, by rw [show st0.queue = st2.queue from rfl, hq], hs, by rw [hid, hi3id]⟩

/-- A state holding a single DECISION intent of confidence `0.98`, above
the default execution threshold. -/
def c10St : St := mkSt [mkIntent "D" .DECISION (49/50)] [] 0

/-- Witness for C10: the DECISION → DECISION transition on the intent of
`c10St` succeeds, appends a history entry, and stages one more
payload. -/
theorem transitionState_same_stage_decision_restages_witness :
    ∃ st' j, transitionState witEnv (0 + 3) c10St "D" .DECISION none = some (st', .ok j) ∧
      j.stage = .DECISION ∧
      j.stageHistory.length = (mkIntent "D" .DECISION (49/50)).stageHistory.length + 1 ∧
      st'.queue.length = c10St.queue.length + 1 ∧
      ∃ pl, st'.queue = c10St.queue ++ [pl] ∧ pl.status = "staged" ∧
        pl.intent_source_id = (mkIntent "D" .DECISION (49/50)).id :=
  transitionState_same_stage_decision_restages witEnv 0 c10St "D" none
    (mkIntent "D" .DECISION (49/50)) defaultParams
    (by decide) (by decide) (by decide) (by decide) (by decide)

end SelfKernel
